import Mathlib

/-!
Verification development for the etherscan-api TypeScript client.

The repository is a typed Etherscan client: zod codecs for wire values
(src/core.ts), per-endpoint schemas (src/json-rpc.ts, src/contract.ts, ...),
a read-through cache keyed by a hash of the request parameters
(src/cache/index.ts), and a facade (src/index.ts, class Client) that builds
query parameters, consults the cache, unwraps the REST or JSON-RPC envelope
and validates the payload.  The repository snapshot also carries a historical
variant of the client (src/etherscan.ts, class EtherScanClient) built on the
ethers library instead of viem.

This file embeds the parts of that code the claims need, shallowly:
JS values are an inductive `Json` type, zod codecs become `Json → Option _`
functions, the stateful cache becomes explicit state passing.  External
library functions the code delegates to (viem getAddress / parseEther,
ethers isAddress / parseEther, ohash objectHash / sha256base64, the JSON.parse
builtin) are not part of the repository sources; they are modelled here from
their published implementations, as the doc comments note case by case.
-/

/-- JS runtime values as delivered by the JSON transport, plus `undefined`
for the JS `undefined` value which zod transforms can produce. -/
inductive Json where
  | null
  | undefined
  | bool (b : Bool)
  | num (n : Int)
  | str (s : String)
  | arr (xs : List Json)
  | obj (fields : List (String × Json))

/-- JS truthiness, as tested by `if (value)` in `Client.fetch`
(src/index.ts line 944).  Objects and arrays are always truthy; `null`,
`undefined`, `false`, `0` and the empty string are falsy. -/
def Json.truthy : Json → Bool
  | .null => false
  | .undefined => false
  | .bool b => b
  | .num n => n != 0
  | .str s => s != ""
  | .arr _ => true
  | .obj _ => true

/-- Field lookup on a JS object: first binding wins (JS objects cannot hold
duplicate keys; object literals in the source never do). -/
def Json.get : Json → String → Option Json
  | .obj fields, k => fields.lookup k
  | _, _ => none

/-- `Json.get` with JS member-access semantics: a missing field reads as
`undefined`, and reading a field off a non-object is irrelevant here. -/
def Json.getD (j : Json) (k : String) : Json :=
  (j.get k).getD .undefined

/-- Primitive query-parameter values accepted by `Client.fetch`
(`type Primitive = boolean | string | number | undefined | null`,
src/index.ts line 49). -/
inductive Prim where
  | bool (b : Bool)
  | str (s : String)
  | num (n : Int)
  | undefined
  | null
deriving DecidableEq

/-- `value.toString()` for primitives, as used by `encodeQueryParams`
(src/index.ts line 961); never reached for `undefined`/`null`. -/
def Prim.toStr : Prim → String
  | .bool b => if b then "true" else "false"
  | .str s => s
  | .num n => toString n
  | .undefined => "undefined"
  | .null => "null"

/-- ASCII lower-casing of one UTF-16 unit, the effect of JS
`String.prototype.toLowerCase` on the ASCII strings handled here. -/
def asciiLower (n : Nat) : Nat :=
  if 65 ≤ n ∧ n ≤ 90 then n + 32 else n

/-- ASCII upper-casing of one UTF-16 unit, the effect of JS
`String.prototype.toUpperCase` on the ASCII strings handled here. -/
def asciiUpper (n : Nat) : Nat :=
  if 97 ≤ n ∧ n ≤ 122 then n - 32 else n

/-- Is the byte an ASCII hexadecimal digit (`[0-9a-fA-F]`)? -/
def isHexByte (n : Nat) : Bool :=
  (48 ≤ n && n ≤ 57) || (97 ≤ n && n ≤ 102) || (65 ≤ n && n ≤ 70)

/-- Is the byte an ASCII decimal digit (`[0-9]`)? -/
def isDigitByte (n : Nat) : Bool :=
  48 ≤ n && n ≤ 57

/-- UTF-16 units of a string; all strings handled by the codecs are ASCII. -/
def strBytes (s : String) : List Nat :=
  s.data.map Char.toNat

/-- Rebuild a string from ASCII units. -/
def strOfBytes (bs : List Nat) : String :=
  String.mk (bs.map Char.ofNat)

/-- The regular expression `^0x[0-9a-fA-F]*$` shared by the `HexValue` and
`HexString` codecs (src/core.ts lines 44 and 51): a literal `0x` prefix
followed by any number — even or odd — of hex digits. -/
def matchesHexRegex (s : String) : Bool :=
  match strBytes s with
  | 48 :: 120 :: rest => rest.all isHexByte
  | _ => false

/-- `HexValue` codec (src/core.ts lines 42–46): refine by the hex regular
expression, then map the bare `"0x"` (length two) to `undefined`. -/
def parseHexValue (j : Json) : Option (Option String) :=
  match j with
  | .str s => if matchesHexRegex s then some (if s.length = 2 then none else some s) else none
  | _ => none

/-- `HexString` codec (src/core.ts line 51): refine by the hex regular
expression, keeping the string unchanged (so `"0x"` stays present). -/
def parseHexString (j : Json) : Option String :=
  match j with
  | .str s => if matchesHexRegex s then some s else none
  | _ => none

/-- `OptionalString` codec (src/core.ts line 31): the empty string becomes
`undefined`, any other string is kept. -/
def parseOptionalString (j : Json) : Option (Option String) :=
  match j with
  | .str s => some (if s = "" then none else some s)
  | _ => none

/-- `EnumBoolean` codec (src/core.ts line 72): exactly `"0"` or `"1"`,
transformed to a boolean. -/
def parseEnumBoolean (j : Json) : Option Bool :=
  match j with
  | .str "0" => some false
  | .str "1" => some true
  | _ => none

/-- Value of a decimal-digit byte string, used by the JS numeric coercions
on the digit strings this API sends. -/
def digitsToNat (bs : List Nat) : Nat :=
  bs.foldl (fun acc b => acc * 10 + (b - 48)) 0

/-- Value of a hex-digit byte string. -/
def hexToNat (bs : List Nat) : Nat :=
  bs.foldl
    (fun acc b =>
      acc * 16 +
        (if b ≤ 57 then b - 48 else if b ≤ 70 then b - 55 else b - 87))
    0

/-- Modelled from the spec: the JS `Number(string)` coercion behind
`z.coerce.number()` (src/core.ts lines 57 and 62), restricted to the inputs
this API produces: plain decimal-digit strings and `0x`-prefixed hex strings
(JS `Number` parses both); anything else is treated as `NaN` here. -/
def jsNumberOfString (s : String) : Option Int :=
  match strBytes s with
  | 48 :: 120 :: rest =>
      if rest ≠ [] ∧ rest.all isHexByte then some (hexToNat rest) else none
  | bs => if bs ≠ [] ∧ bs.all isDigitByte then some (digitsToNat bs) else none

/-- `z.coerce.number()` applied to a JS value (`Number(value)`), `NaN`
rejected by the number check. -/
def jsCoerceNumber (j : Json) : Option Int :=
  match j with
  | .str s => jsNumberOfString s
  | .num n => some n
  | .bool b => some (if b then 1 else 0)
  | .null => some 0
  | _ => none

/-- `Integer` codec (src/core.ts line 62): `z.coerce.number().int()`. -/
def parseInteger (j : Json) : Option Int :=
  jsCoerceNumber j

/-- Modelled from the spec: the JS `BigInt(string)` coercion behind
`z.coerce.bigint()` (the `Wei` codec, src/core.ts line 67), on decimal and
`0x`-prefixed digit strings; a fractional or malformed string throws. -/
def jsBigIntOfString (s : String) : Option Int :=
  match strBytes s with
  | 48 :: 120 :: rest =>
      if rest ≠ [] ∧ rest.all isHexByte then some (hexToNat rest) else none
  | bs => if bs.all isDigitByte then some (digitsToNat bs) else none

/-- `Wei` codec (src/core.ts line 67): `z.coerce.bigint()`. -/
def parseWei (j : Json) : Option Int :=
  match j with
  | .str s => jsBigIntOfString s
  | .num n => some n
  | .bool b => some (if b then 1 else 0)
  | _ => none

/-- `Timestamp` codec (src/core.ts line 57): `z.coerce.number()`. -/
def parseTimestamp (j : Json) : Option Int :=
  jsCoerceNumber j

/-! ## Keccak-256 and EIP-55 checksum addresses

The `Address` codec of src/core.ts delegates to viem's `getAddress`, and the
historical codec of src/etherscan.ts delegates to ethers' `isAddress`.  Both
libraries are external to the repository; they are modelled here from their
published implementations: EIP-55 checksum casing driven by the Keccak-256
hash of the lower-cased 40-character hex string, implemented below in full.
-/

/-- 64-bit rotate left on `Nat` lanes. -/
def rotl64 (x n : Nat) : Nat :=
  ((x <<< n) ||| (x >>> (64 - n))) % (2 ^ 64)

/-- Lane read from a 25-lane Keccak state. -/
def lane (A : List Nat) (i : Nat) : Nat :=
  A.getD i 0

/-- Keccak θ step. -/
def keccakTheta (A : List Nat) : List Nat :=
  let C := (List.range 5).map fun x =>
    lane A x ^^^ lane A (x + 5) ^^^ lane A (x + 10) ^^^ lane A (x + 15) ^^^ lane A (x + 20)
  let D := (List.range 5).map fun x =>
    lane C ((x + 4) % 5) ^^^ rotl64 (lane C ((x + 1) % 5)) 1
  (List.range 25).map fun i => lane A i ^^^ lane D (i % 5)

/-- Keccak rotation offsets, indexed `x + 5 * y`. -/
def keccakRot : List Nat :=
  [0, 1, 62, 28, 27] ++
    [36, 44, 6, 55, 20] ++
    [3, 10, 43, 25, 39] ++
    [41, 45, 15, 21, 8] ++
    [18, 2, 61, 56, 14]

/-- Keccak ρ and π steps combined: the lane written at `(xp, yp)` comes from
`(x, y)` with `y = xp` and `yp = (2 x + 3 y) mod 5`. -/
def keccakRhoPi (A : List Nat) : List Nat :=
  (List.range 25).map fun t =>
    let xp := t % 5
    let yp := t / 5
    let x := (3 * (yp + 15 - 3 * xp)) % 5
    let src := x + 5 * xp
    rotl64 (lane A src) (lane keccakRot src)

/-- Keccak χ step. -/
def keccakChi (B : List Nat) : List Nat :=
  (List.range 25).map fun t =>
    let x := t % 5
    let y := t / 5
    B.getD t 0 ^^^ ((B.getD ((x + 1) % 5 + 5 * y) 0 ^^^ (2 ^ 64 - 1)) &&& B.getD ((x + 2) % 5 + 5 * y) 0)

/-- Keccak round constants. -/
def keccakRC : List Nat :=
  [0x0000000000000001, 0x0000000000008082, 0x800000000000808a, 0x8000000080008000,
   0x000000000000808b, 0x0000000080000001, 0x8000000080008081, 0x8000000000008009,
   0x000000000000008a, 0x0000000000000088, 0x0000000080008009, 0x000000008000000a,
   0x000000008000808b, 0x800000000000008b, 0x8000000000008089, 0x8000000000008003,
   0x8000000000008002, 0x8000000000000080, 0x000000000000800a, 0x800000008000000a,
   0x8000000080008081, 0x8000000000008080, 0x0000000080000001, 0x8000000080008008]

/-- One Keccak-f round. -/
def keccakRound (A : List Nat) (rc : Nat) : List Nat :=
  let B := keccakRhoPi (keccakTheta A)
  let C := keccakChi B
  (List.range 25).map fun t => if t = 0 then C.getD 0 0 ^^^ rc else C.getD t 0

/-- The Keccak-f[1600] permutation: 24 rounds. -/
def keccakF (A : List Nat) : List Nat :=
  keccakRC.foldl keccakRound A

/-- Split a byte list into blocks of 136 bytes (fuelled so the definition
stays structurally recursive and kernel-reducible). -/
def chunk136 : Nat → List Nat → List (List Nat)
  | 0, _ => []
  | _ + 1, [] => []
  | fuel + 1, l => l.take 136 :: chunk136 fuel (l.drop 136)

/-- Keccak multi-rate padding for rate 136 (pad byte 0x01 … 0x80). -/
def keccakPad (msg : List Nat) : List Nat :=
  let p := 136 - msg.length % 136
  if p = 1 then msg ++ [0x81]
  else msg ++ [0x01] ++ List.replicate (p - 2) 0 ++ [0x80]

/-- Little-endian 64-bit lane from (up to) eight bytes. -/
def le64 (bs : List Nat) : Nat :=
  (bs.take 8).foldr (fun b acc => acc * 256 + b) 0

/-- Absorb one 136-byte block into the state. -/
def keccakAbsorbBlock (A : List Nat) (block : List Nat) : List Nat :=
  keccakF ((List.range 25).map fun i =>
    if i < 17 then lane A i ^^^ le64 ((block.drop (8 * i)).take 8) else lane A i)

/-- Keccak-256 of a byte list: 32-byte digest. -/
def keccak256 (msg : List Nat) : List Nat :=
  let padded := keccakPad msg
  let final := (chunk136 (padded.length + 1) padded).foldl keccakAbsorbBlock (List.replicate 25 0)
  (List.range 32).map fun i => lane final (i / 8) / 256 ^ (i % 8) % 256

/-- EIP-55 checksum casing of a lower-case 40-character hex address body:
upper-case the i-th character when the i-th nibble of the Keccak-256 hash of
the (ASCII) body is at least 8.  This is the common core of viem's
`checksumAddress` and ethers' `getChecksumAddress`. -/
def checksumCase (lower40 : List Nat) : List Nat :=
  let hash := keccak256 lower40
  (List.range lower40.length).map fun i =>
    let h := hash.getD (i / 2) 0
    let nib := if i % 2 = 0 then h / 16 else h % 16
    if 8 ≤ nib then asciiUpper (lower40.getD i 0) else lower40.getD i 0

/-- Lower-case a string byte-wise (JS `toLowerCase` on ASCII input). -/
def strToLower (s : String) : String :=
  strOfBytes ((strBytes s).map asciiLower)

/-- Modelled from viem's `isAddress(value, \x7b strict: false \x7d)`: the test
`/^0x[0-9a-fA-F]\x7b40\x7d$/` alone — `getAddress` re-checksums, so it skips
the strict checksum verification. -/
def viemIsAddressLoose (s : String) : Bool :=
  match strBytes s with
  | 48 :: 120 :: rest => rest.length = 40 && rest.all isHexByte
  | _ => false

/-- Modelled from viem's `checksumAddress(address_)` (no chain id): take the
address body after `0x`, lower-case it, hash its ASCII bytes with Keccak-256
and upper-case each character whose nibble is at least 8. -/
def viemChecksumAddress (s : String) : String :=
  let hexAddress := ((strBytes s).drop 2).map asciiLower
  "0x" ++ strOfBytes (checksumCase hexAddress)

/-- Modelled from viem's `getAddress(address)`: throw `InvalidAddressError`
unless the loose address test passes, then return the checksummed form.
The `Address` codec of src/core.ts (lines 7–19) wraps exactly this call and
turns the throw into a zod issue. -/
def viemGetAddress (s : String) : Option String :=
  if viemIsAddressLoose s then some (viemChecksumAddress s) else none

/-- `Address` codec of src/core.ts (lines 7–19): `z.string().transform`
around viem's `getAddress`, failing where the library throws. -/
def parseAddress (j : Json) : Option String :=
  match j with
  | .str s => viemGetAddress s
  | _ => none

/-- `OptionalAddress` codec (src/core.ts line 36): `Address.or(OptionalString)`,
so a valid address checksums, the empty string reads as absent, and any other
string is passed through by the `OptionalString` arm. -/
def parseOptionalAddress (j : Json) : Option (Option String) :=
  match parseAddress j with
  | some a => some (some a)
  | none => parseOptionalString j

/-- Does the string contain an upper-case `A`–`F` hex letter? -/
def hasUpperHexLetter (s : String) : Bool :=
  (strBytes s).any fun b => 65 ≤ b && b ≤ 70

/-- Does the string contain a lower-case `a`–`f` hex letter? -/
def hasLowerHexLetter (s : String) : Bool :=
  (strBytes s).any fun b => 97 ≤ b && b ≤ 102

/-- Modelled from ethers v6 `getAddress(address)` (the ICAP branch is not
reachable from this repository and is omitted): the input must match
`/^(0x)?[0-9a-fA-F]\x7b40\x7d$/`; the `0x` prefix is added when missing; the
EIP-55 checksummed form is computed; and when the input mixes upper- and
lower-case hex letters (`/([A-F].*[a-f])|([a-f].*[A-F])/`) the input must
already equal its checksummed form, else "bad address checksum" is thrown. -/
def ethersGetAddress (s : String) : Option String :=
  let body := match strBytes s with
    | 48 :: 120 :: rest => if rest.length = 40 && rest.all isHexByte then some rest else none
    | bs => if bs.length = 40 && bs.all isHexByte then some bs else none
  match body with
  | none => none
  | some rest =>
      let address := "0x" ++ strOfBytes rest
      let result := "0x" ++ strOfBytes (checksumCase (rest.map asciiLower))
      if hasUpperHexLetter s && hasLowerHexLetter s then
        if result = address then some result else none
      else
        some result

/-- Modelled from ethers v6 `isAddress(value)`: `getAddress` succeeds. -/
def ethersIsAddress (s : String) : Bool :=
  (ethersGetAddress s).isSome

/-- Historical `Address` codec of src/etherscan.ts (lines 19–25):
`z.string().refine(ethers.isAddress).transform(value => value.toLowerCase())`
— note the output is the lower-cased input, not the checksummed form. -/
def etherScanParseAddress (j : Json) : Option String :=
  match j with
  | .str s => if ethersIsAddress s then some (strToLower s) else none
  | _ => none

/-! ## Ether codecs

src/core.ts line 26 defines `Ether` as `z.string().transform(parseEther)`
with viem's `parseEther`; src/etherscan.ts line 36 defines the historical
`Ether` as `z.string().transform(ethers.parseEther)`.  Both library functions
are modelled below from their published implementations.
-/

/-- JS `String.prototype.split` on a one-byte separator: never empty,
`"".split` gives `[""]`, separators at the ends give empty parts. -/
def splitOnByte (sep : Nat) : List Nat → List (List Nat)
  | [] => [[]]
  | c :: rest =>
      match splitOnByte sep rest with
      | h :: t => if c = sep then [] :: h :: t else (c :: h) :: t
      | [] => [[c]]

/-- JS `replace(/(0+)$/, "")`: drop the trailing zero digits. -/
def dropTrailingZeroBytes (bs : List Nat) : List Nat :=
  (bs.reverse.dropWhile fun b => b == 48).reverse

/-- Decimal digit bytes of a natural number (`BigInt.prototype.toString`). -/
def natToDigitBytes (n : Nat) : List Nat :=
  (Nat.toDigits 10 n).map Char.toNat

/-- JS `padStart(n, "0")`. -/
def padStartZeros (n : Nat) (bs : List Nat) : List Nat :=
  List.replicate (n - bs.length) 48 ++ bs

/-- The viem / ethers decimal-string test `/^(-?)([0-9]*)\.?([0-9]*)$/`:
an optional leading minus, digits, at most one dot, digits. -/
def decimalRegexTest (bs : List Nat) : Bool :=
  let core := if bs.headD 0 = 45 then bs.drop 1 else bs
  match splitOnByte 46 core with
  | [a] => a.all isDigitByte
  | [a, b] => a.all isDigitByte && b.all isDigitByte
  | _ => false

/-- `Math.round` of the decimal value `unit.right` built from one leading
digit and a digit tail, as used by viem's rounding step
`Math.round(Number(unitDotRight))`: round half up.  viem computes this via a
double; the model is exact, which agrees with the double except on digit
tails long enough to hit binary-rounding at exactly one half. -/
def roundHalfUpDigit (unit : Nat) (right : List Nat) : Nat :=
  if 10 ^ right.length ≤ 2 * digitsToNat right then unit + 1 else unit

/-- Modelled from viem's `parseUnits(value, decimals)`: reject strings not
matching the decimal test; split at the dot (the fraction defaulting to
`"0"`); strip a leading minus and trailing fraction zeros; when the fraction
is longer than `decimals`, round half-up at position `decimals` with carry,
otherwise right-pad the fraction with zeros; finally read the concatenated
digits as a big integer. -/
def viemParseUnits (value : String) (decimals : Nat) : Option Int :=
  let bs := strBytes value
  if ¬ decimalRegexTest bs then none
  else
    let parts := splitOnByte 46 bs
    let integer0 := parts.getD 0 []
    let fraction0 := if 2 ≤ parts.length then parts.getD 1 [] else [48]
    let negative := integer0.headD 0 = 45
    let integer1 := if negative then integer0.drop 1 else integer0
    let fraction1 := dropTrailingZeroBytes fraction0
    let (integer2, fraction2) :=
      if decimals = 0 then
        (if roundHalfUpDigit 0 fraction1 = 1 then natToDigitBytes (digitsToNat integer1 + 1)
         else integer1,
         [])
      else if decimals < fraction1.length then
        let left := fraction1.take (decimals - 1)
        let unit := fraction1.getD (decimals - 1) 48 - 48
        let right := fraction1.drop decimals
        let rounded := roundHalfUpDigit unit right
        let fractionA :=
          if 9 < rounded then
            padStartZeros (left.length + 1) (natToDigitBytes (digitsToNat left + 1) ++ [48])
          else left ++ [rounded + 48]
        let (fractionB, integerB) :=
          if decimals < fractionA.length then
            (fractionA.drop 1, natToDigitBytes (digitsToNat integer1 + 1))
          else (fractionA, integer1)
        (integerB, fractionB.take decimals)
      else
        (integer1, fraction1 ++ List.replicate (decimals - fraction1.length) 48)
    some ((if negative then -1 else 1) * (digitsToNat (integer2 ++ fraction2) : Int))

/-- viem's `parseEther(ether)` is `parseUnits(ether, 18)`. -/
def viemParseEther (s : String) : Option Int :=
  viemParseUnits s 18

/-- `Ether` codec of src/core.ts (line 26): `z.string().transform(parseEther)`;
a throw from the library propagates as a failure. -/
def parseEtherCodec (j : Json) : Option Int :=
  match j with
  | .str s => viemParseEther s
  | _ => none

/-- Modelled from ethers v6 `parseEther` = `parseUnits(value, 18)` =
`FixedNumber.fromString(value, \x7b decimals: 18, width: 512 \x7d).value`:
match the decimal test with at least one digit; right-pad the fraction to 18
digits; throw "too many decimals for format" unless every fraction digit past
the 18th is zero; truncate to 18 digits and read the digits as a big
integer. -/
def ethersParseEther (s : String) : Option Int :=
  let bs := strBytes s
  let negative := bs.headD 0 = 45
  let core := if negative then bs.drop 1 else bs
  match splitOnByte 46 core with
  | [whole0] =>
      if whole0.all isDigitByte ∧ whole0 ≠ [] then
        some ((if negative then -1 else 1) *
          (digitsToNat (whole0 ++ List.replicate 18 48) : Int))
      else none
  | [whole0, decimal0] =>
      if whole0.all isDigitByte ∧ decimal0.all isDigitByte ∧ (whole0 ≠ [] ∨ decimal0 ≠ []) then
        let whole := if whole0 = [] then [48] else whole0
        let decimal1 := decimal0 ++ List.replicate (18 - decimal0.length) 48
        if (decimal1.drop 18).all fun b => b = 48 then
          some ((if negative then -1 else 1) *
            (digitsToNat (whole ++ decimal1.take 18) : Int))
        else none
      else none
  | _ => none

/-- Historical `Ether` codec of src/etherscan.ts (line 36):
`z.string().transform(ethers.parseEther)`. -/
def etherScanParseEtherCodec (j : Json) : Option Int :=
  match j with
  | .str s => ethersParseEther s
  | _ => none

/-! ## Cache key derivation

src/cache/index.ts line 27: `serialize = (object) => sha256base64(objectHash(object))`
using the ohash package.  ohash's `objectHash` serializes a plain object by
sorting its keys (`unorderedObjects` defaults to true) and concatenating a
tagged serialization of each key and value — in particular entries whose
value is `undefined` or `null` are serialized like any other entry, not
dropped.  `sha256base64` is a SHA-256 digest rendered in base64.  Both are
modelled below: the hash is a full SHA-256 implementation; the exact token
spellings of the ohash serializer are abbreviated, which no theorem relies
on (only that the serializer is deterministic and key-sorted).
-/

/-- ohash serializer token for one primitive value. -/
def primToken : Prim → String
  | .str s => "string:" ++ toString s.length ++ ":" ++ s
  | .num n => "number:" ++ toString n
  | .bool b => "bool:" ++ (if b then "true" else "false")
  | .undefined => "undefined"
  | .null => "null"

/-- JS string comparison (`a <= b` over UTF-16 code units), as used by
`Array.prototype.sort` on `Object.keys`. -/
def lexLe : List Nat → List Nat → Bool
  | [], _ => true
  | _ :: _, [] => false
  | a :: as, b :: bs => if a < b then true else if b < a then false else lexLe as bs

/-- Key order for parameter entries. -/
def keyLe (a b : String × Prim) : Bool :=
  lexLe (strBytes a.1) (strBytes b.1)

/-- Insert one entry into a key-sorted list. -/
def insertSorted (kv : String × Prim) : List (String × Prim) → List (String × Prim)
  | [] => [kv]
  | a :: l => if keyLe kv a then kv :: a :: l else a :: insertSorted kv l

/-- Sort parameter entries by key (a stable insertion sort), the effect of
`Object.keys(object).sort()` for the distinct keys the facade uses. -/
def sortByKey : List (String × Prim) → List (String × Prim)
  | [] => []
  | a :: l => insertSorted a (sortByKey l)

/-- Modelled ohash `objectHash` of a flat parameter object: sorted keys, a
length header, and `key:value,` items. -/
def objectHashParams (p : List (String × Prim)) : String :=
  "object:" ++ toString p.length ++ ":" ++
    ((sortByKey p).map fun kv =>
      primToken (.str kv.1) ++ ":" ++ primToken kv.2 ++ ",").foldl (· ++ ·) ""

/-- 32-bit rotate right. -/
def rotr32 (x n : Nat) : Nat :=
  ((x >>> n) ||| (x <<< (32 - n))) % (2 ^ 32)

/-- SHA-256 round constants (FIPS 180-4). -/
def sha256K : List Nat :=
  [0x428a2f98, 0x71374491, 0xb5c0fbcf, 0xe9b5dba5] ++
    [0x3956c25b, 0x59f111f1, 0x923f82a4, 0xab1c5ed5] ++
    [0xd807aa98, 0x12835b01, 0x243185be, 0x550c7dc3] ++
    [0x72be5d74, 0x80deb1fe, 0x9bdc06a7, 0xc19bf174] ++
    [0xe49b69c1, 0xefbe4786, 0x0fc19dc6, 0x240ca1cc] ++
    [0x2de92c6f, 0x4a7484aa, 0x5cb0a9dc, 0x76f988da] ++
    [0x983e5152, 0xa831c66d, 0xb00327c8, 0xbf597fc7] ++
    [0xc6e00bf3, 0xd5a79147, 0x06ca6351, 0x14292967] ++
    [0x27b70a85, 0x2e1b2138, 0x4d2c6dfc, 0x53380d13] ++
    [0x650a7354, 0x766a0abb, 0x81c2c92e, 0x92722c85] ++
    [0xa2bfe8a1, 0xa81a664b, 0xc24b8b70, 0xc76c51a3] ++
    [0xd192e819, 0xd6990624, 0xf40e3585, 0x106aa070] ++
    [0x19a4c116, 0x1e376c08, 0x2748774c, 0x34b0bcb5] ++
    [0x391c0cb3, 0x4ed8aa4a, 0x5b9cca4f, 0x682e6ff3] ++
    [0x748f82ee, 0x78a5636f, 0x84c87814, 0x8cc70208] ++
    [0x90befffa, 0xa4506ceb, 0xbef9a3f7, 0xc67178f2]

/-- SHA-256 initial hash state. -/
def sha256H0 : List Nat :=
  [0x6a09e667, 0xbb67ae85, 0x3c6ef372, 0xa54ff53a] ++
    [0x510e527f, 0x9b05688c, 0x1f83d9ab, 0x5be0cd19]

/-- SHA-256 message padding: `0x80`, zeros to 56 mod 64, 64-bit big-endian
bit length. -/
def sha256Pad (msg : List Nat) : List Nat :=
  let zeros := (64 - (msg.length + 9) % 64) % 64
  msg ++ [0x80] ++ List.replicate zeros 0 ++
    ((List.range 8).map fun i => msg.length * 8 / 256 ^ (7 - i) % 256)

/-- Split padded input into 64-byte blocks (fuelled structural recursion). -/
def chunk64 : Nat → List Nat → List (List Nat)
  | 0, _ => []
  | _ + 1, [] => []
  | fuel + 1, l => l.take 64 :: chunk64 fuel (l.drop 64)

/-- Big-endian 32-bit word from four bytes. -/
def be32 (bs : List Nat) : Nat :=
  (bs.take 4).foldl (fun acc b => acc * 256 + b) 0

/-- SHA-256 message schedule: 64 words from a 64-byte block. -/
def sha256Schedule (block : List Nat) : List Nat :=
  (List.range 64).foldl
    (fun w t =>
      if t < 16 then w ++ [be32 ((block.drop (4 * t)).take 4)]
      else
        let w2 := w.getD (t - 2) 0
        let w15 := w.getD (t - 15) 0
        let s0 := rotr32 w15 7 ^^^ rotr32 w15 18 ^^^ (w15 >>> 3)
        let s1 := rotr32 w2 17 ^^^ rotr32 w2 19 ^^^ (w2 >>> 10)
        w ++ [(s1 + w.getD (t - 7) 0 + s0 + w.getD (t - 16) 0) % 2 ^ 32])
    []

/-- SHA-256 compression of one block into the running state. -/
def sha256Compress (H : List Nat) (block : List Nat) : List Nat :=
  let w := sha256Schedule block
  let final := (List.range 64).foldl
    (fun v t =>
      let a := v.getD 0 0
      let b := v.getD 1 0
      let c := v.getD 2 0
      let d := v.getD 3 0
      let e := v.getD 4 0
      let f := v.getD 5 0
      let g := v.getD 6 0
      let h := v.getD 7 0
      let S1 := rotr32 e 6 ^^^ rotr32 e 11 ^^^ rotr32 e 25
      let ch := (e &&& f) ^^^ ((e ^^^ (2 ^ 32 - 1)) &&& g)
      let t1 := (h + S1 + ch + sha256K.getD t 0 + w.getD t 0) % 2 ^ 32
      let S0 := rotr32 a 2 ^^^ rotr32 a 13 ^^^ rotr32 a 22
      let maj := (a &&& b) ^^^ (a &&& c) ^^^ (b &&& c)
      let t2 := (S0 + maj) % 2 ^ 32
      [(t1 + t2) % 2 ^ 32, a, b, c, (d + t1) % 2 ^ 32, e, f, g])
    H
  (List.range 8).map fun i => (H.getD i 0 + final.getD i 0) % 2 ^ 32

/-- SHA-256 digest (32 bytes) of a byte list. -/
def sha256Bytes (msg : List Nat) : List Nat :=
  let padded := sha256Pad msg
  let H := (chunk64 (padded.length + 1) padded).foldl sha256Compress sha256H0
  H.foldr (fun wrd acc => ((List.range 4).map fun i => wrd / 256 ^ (3 - i) % 256) ++ acc) []

/-- Base64 alphabet used to render the digest (url-safe, unpadded, as the
ohash package renders cache keys). -/
def base64Char (n : Nat) : Nat :=
  if n < 26 then 65 + n
  else if n < 52 then 97 + (n - 26)
  else if n < 62 then 48 + (n - 52)
  else if n = 62 then 45
  else 95

/-- Base64 rendering of a byte list, unpadded (fuelled recursion over
three-byte groups). -/
def base64Groups : Nat → List Nat → List Nat
  | 0, _ => []
  | _ + 1, [] => []
  | _ + 1, [a] =>
      [base64Char (a / 4), base64Char (a % 4 * 16)]
  | _ + 1, [a, b] =>
      [base64Char (a / 4), base64Char (a % 4 * 16 + b / 16), base64Char (b % 16 * 4)]
  | fuel + 1, a :: b :: c :: rest =>
      base64Char (a / 4) :: base64Char (a % 4 * 16 + b / 16) ::
        base64Char (b % 16 * 4 + c / 64) :: base64Char (c % 64) :: base64Groups fuel rest

/-- Modelled ohash `sha256base64`: SHA-256 of the ASCII serialization,
rendered in base64. -/
def sha256base64 (s : String) : String :=
  let digest := sha256Bytes (strBytes s)
  strOfBytes (base64Groups (digest.length + 1) digest)

/-- The default cache key derivation of src/cache/index.ts line 27:
`serialize = object => sha256base64(objectHash(object))`. -/
def defaultSerialize (p : List (String × Prim)) : String :=
  sha256base64 (objectHashParams p)

/-! ## Client facade (src/index.ts)

`Client.fetch` (lines 937–950) encodes the query URL, and — when a cache is
configured — derives the key with `cache.serialize(params)`, returns a
truthy stored value, and otherwise invokes the transport and stores the raw
response before returning it.  `callApi` (lines 966–973) and `callJsonRpc`
(lines 975–985) unwrap the two envelopes on top of `fetch`.  The transport
(`ofetch`) is modelled as a function from the encoded URL to a JSON value,
and the unstorage storage backend as an association list carried in an
explicit state. -/

/-- The pluggable `Cache` of src/index.ts lines 278–286: a serialization
strategy (the storage lives in the explicit state below). -/
structure Cache where
  serialize : List (String × Prim) → String

/-- The default cache built by `createCache` (src/cache/index.ts): the
`serialize` hash above plus an in-memory storage driver. -/
def createCache : Cache :=
  ⟨defaultSerialize⟩

/-- `Client` configuration (src/index.ts lines 294–305): optional cache,
optional API key, API URL defaulting to the Etherscan endpoint. -/
structure Client where
  apiUrl : String := "https://api.etherscan.io/api"
  cache : Option Cache := none
  apiKey : Option String := none

/-- An encoded request URL: base plus ordered search parameters. -/
structure Url where
  base : String
  query : List (String × String)
deriving DecidableEq

/-- `URLSearchParams.set`: replace the value in place if the name exists,
else append. -/
def searchParamsSet (q : List (String × String)) (k v : String) : List (String × String) :=
  if q.any fun kv => kv.1 = k then
    q.map fun kv => if kv.1 = k then (k, v) else kv
  else q ++ [(k, v)]

/-- `Client.encodeQueryParams` (src/index.ts lines 952–964): start from the
API URL, set `apikey` when configured, then set every parameter whose value
is neither `undefined` nor `null`, stringified. -/
def encodeQueryParams (c : Client) (params : List (String × Prim)) : Url :=
  let url0 : Url := ⟨c.apiUrl, []⟩
  let url1 : Url :=
    match c.apiKey with
    | some k => ⟨url0.base, searchParamsSet url0.query "apikey" k⟩
    | none => url0
  params.foldl
    (fun u kv =>
      match kv.2 with
      | .undefined => u
      | .null => u
      | v => ⟨u.base, searchParamsSet u.query kv.1 v.toStr⟩)
    url1

/-- Storage plus a transport-invocation counter, the observable state of a
sequence of facade calls. -/
structure FetchWorld where
  store : List (String × Json)
  calls : Nat

/-- The fresh world: empty cache storage, no transport calls yet. -/
def freshWorld : FetchWorld :=
  ⟨[], 0⟩

/-- unstorage `setItem` on the in-memory driver: overwrite or append. -/
def storageSetItem (store : List (String × Json)) (k : String) (v : Json) :
    List (String × Json) :=
  if store.any fun kv => kv.1 = k then
    store.map fun kv => if kv.1 = k then (k, v) else kv
  else store ++ [(k, v)]

/-- `Client.fetch` (src/index.ts lines 937–950).  Without a cache: transport
only.  With a cache: derive the key from the parameters (not the URL — the
API key never reaches the key), return a stored truthy value without calling
the transport, otherwise call the transport and store the raw response
before returning it.  `getItem` yields `null` for an absent key, and the
source guards with JS truthiness (`if (value)`). -/
def clientFetch (c : Client) (transport : Url → Json) (params : List (String × Prim))
    (w : FetchWorld) : Json × FetchWorld :=
  let url := encodeQueryParams c params
  match c.cache with
  | none => (transport url, ⟨w.store, w.calls + 1⟩)
  | some cache =>
      let key := cache.serialize params
      let value := (w.store.lookup key).getD .null
      if value.truthy then (value, w)
      else
        let response := transport url
        (response, ⟨storageSetItem w.store key response, w.calls + 1⟩)

/-- JS `String(value)` coercion, used by `new Error(apiResponse.result)`. -/
def jsStringCoerce : Json → String
  | .str s => s
  | .num n => toString n
  | .bool b => if b then "true" else "false"
  | .null => "null"
  | .undefined => "undefined"
  | .arr _ => ""
  | .obj _ => "[object Object]"

/-- A failure surfaced by `callApi` / `callJsonRpc`: either the envelope
matched neither declared shape (`Response.parse` / `JsonRpcResponse.parse`
threw a zod error), or the client threw `new Error(...)` with the given
message. -/
inductive ApiFailure where
  | zodError
  | remote (message : String)
deriving DecidableEq

/-- The REST envelope schema of src/index.ts lines 51–63: a discriminated
union on `status`, `"1"` and `"0"` both carrying a string `message` and an
unconstrained `result` (a missing `result` reads as `undefined`). -/
def parseRestEnvelope (j : Json) : Option (Bool × String × Json) :=
  match j.get "status" with
  | some (.str "1") =>
      match j.get "message" with
      | some (.str m) => some (true, m, (j.get "result").getD .undefined)
      | _ => none
  | some (.str "0") =>
      match j.get "message" with
      | some (.str m) => some (false, m, (j.get "result").getD .undefined)
      | _ => none
  | _ => none

/-- `Client.callApi` (src/index.ts lines 966–973): fetch (through the
cache), parse the REST envelope, and on `status: "0"` throw
`new Error(apiResponse.result)` — the message is the stringified `result`
field. -/
def clientCallApi (c : Client) (transport : Url → Json) (params : List (String × Prim))
    (w : FetchWorld) : Except ApiFailure Json × FetchWorld :=
  let (response, w1) := clientFetch c transport params w
  match parseRestEnvelope response with
  | none => (.error .zodError, w1)
  | some (true, _, result) => (.ok result, w1)
  | some (false, _, result) => (.error (.remote (jsStringCoerce result)), w1)

/-- JS object-literal merge `\x7b module: "proxy", ...params \x7d`: keys of
the base keep their position, later spread entries overwrite values, new
keys append. -/
def jsMerge (base extra : List (String × Prim)) : List (String × Prim) :=
  (base.map fun kv => (kv.1, ((extra.lookup kv.1).getD kv.2))) ++
    extra.filter fun kv => (base.lookup kv.1).isNone

/-- The JSON-RPC envelope schema of src/index.ts lines 229–251:
`JsonRpcResponseOk.or(JsonRpcResponseError)`.  The ok arm requires
`jsonrpc: "2.0"` with `id` and `result` both `z.unknown()`; since
`z.unknown()` accepts a missing key, the ok arm succeeds for every object
carrying `jsonrpc: "2.0"` — including error envelopes, whose `result` then
reads as `undefined` — so the error arm is unreachable. -/
def parseJsonRpcEnvelope (j : Json) : Option Json :=
  match j.get "jsonrpc" with
  | some (.str "2.0") => some ((j.get "result").getD .undefined)
  | _ => none

/-- `Client.callJsonRpc` (src/index.ts lines 975–985): fetch with
`module: "proxy"` merged in, parse the JSON-RPC envelope and return its
`result` (the `error` throw is dead code, see `parseJsonRpcEnvelope`). -/
def clientCallJsonRpc (c : Client) (transport : Url → Json)
    (params : List (String × Prim)) (w : FetchWorld) :
    Except ApiFailure Json × FetchWorld :=
  let (response, w1) := clientFetch c transport (jsMerge [("module", .str "proxy")] params) w
  match parseJsonRpcEnvelope response with
  | none => (.error .zodError, w1)
  | some result => (.ok result, w1)

/-! ## Historical EtherScanClient (src/etherscan.ts)

The historical client has no cache: `callApi` (lines 1065–1073) encodes the
URL (the API key is mandatory), fetches, parses the same REST envelope shape
— except that the error arm requires `result` to be a string (line 79) —
and on `status: "0"` throws `new Error(apiResponse.message)`: the *message*
field, not the *result* field. -/

/-- REST envelope as declared in src/etherscan.ts lines 70–83: like the
current one, but the `"0"` arm requires a string `result`. -/
def esParseRestEnvelope (j : Json) : Option (Bool × String × Json) :=
  match j.get "status" with
  | some (.str "1") =>
      match j.get "message" with
      | some (.str m) => some (true, m, (j.get "result").getD .undefined)
      | _ => none
  | some (.str "0") =>
      match j.get "message", j.get "result" with
      | some (.str m), some (.str r) => some (false, m, .str r)
      | _, _ => none
  | _ => none

/-- `EtherScanClient.callApi` (src/etherscan.ts lines 1065–1073): encode,
fetch (no cache), parse the envelope and on failure throw
`new Error(apiResponse.message)`. -/
def etherScanCallApi (apiUrl apiKey : String) (transport : Url → Json)
    (params : List (String × Prim)) : Except ApiFailure Json :=
  let url := encodeQueryParams ⟨apiUrl, none, some apiKey⟩ params
  let response := transport url
  match esParseRestEnvelope response with
  | none => .error .zodError
  | some (true, _, result) => .ok result
  | some (false, m, _) => .error (.remote m)

/-! ## JSON-RPC schemas (src/json-rpc.ts)

The transaction envelope union (lines 14–118) and the block schemas
(lines 120–168), composed from the src/core.ts codecs.  `toAddr` / `fromAddr`
stand for the wire fields `to` / `from`, which are reserved words here. -/

/-- `z.object` front guard: zod rejects non-objects before any field
check. -/
def Json.isObj : Json → Bool
  | .obj _ => true
  | _ => false

/-- Is the value exactly the given string (a `z.literal` test)? -/
def Json.isStr : Json → String → Bool
  | .str t, s => t == s
  | _, _ => false

/-- An optional field (`.optional()`): a missing value parses to `none`. -/
def optField (p : Json → Option α) (j : Json) : Option (Option α) :=
  match j with
  | .undefined => some none
  | _ => (p j).map some

/-- One access-list entry (`accessList` items). -/
structure AccessListEntry where
  address : String
  storageKeys : List String

/-- Parser for one access-list entry. -/
def parseAccessEntry (j : Json) : Option AccessListEntry := do
  guard j.isObj
  let a ← parseAddress (j.getD "address")
  match j.getD "storageKeys" with
  | .arr ks => return ⟨a, ← ks.mapM parseHexString⟩
  | _ => none

/-- `z.array(...)` of access-list entries. -/
def parseAccessList (j : Json) : Option (List AccessListEntry) :=
  match j with
  | .arr xs => xs.mapM parseAccessEntry
  | _ => none

/-- `SignedLegacyTransaction` payload (src/json-rpc.ts lines 14–27). -/
structure LegacyTx where
  nonce : Int
  toAddr : Option String
  gas : Int
  value : Int
  input : String
  gasPrice : Int
  chainId : Option Int
  v : Option String
  r : Option String
  s : Option String

/-- `SignedLegacyTransaction.parse`: requires `type: "0x0"` (a literal),
`to` an address or null, `chainId` optional. -/
def parseLegacyTx (j : Json) : Option LegacyTx := do
  guard j.isObj
  guard ((j.getD "type").isStr "0x0")
  let nonce ← parseWei (j.getD "nonce")
  let toAddr ←
    match j.getD "to" with
    | .null => some none
    | t => (parseAddress t).map some
  let gas ← parseWei (j.getD "gas")
  let value ← parseWei (j.getD "value")
  let input ← parseHexString (j.getD "input")
  let gasPrice ← parseWei (j.getD "gasPrice")
  let chainId ← optField parseInteger (j.getD "chainId")
  let v ← parseHexValue (j.getD "v")
  let r ← parseHexValue (j.getD "r")
  let s ← parseHexValue (j.getD "s")
  return ⟨nonce, toAddr, gas, value, input, gasPrice, chainId, v, r, s⟩

/-- `Signed2930Transaction` payload (src/json-rpc.ts lines 29–54). -/
structure Tx2930 where
  blockHash : String
  blockNumber : Int
  fromAddr : String
  gas : Int
  gasPrice : Int
  hash : String
  input : String
  nonce : String
  toAddr : Option String
  transactionIndex : Int
  value : Int
  accessList : List AccessListEntry
  chainId : Int
  v : Option String
  r : Option String
  s : Option String
  yParity : Int

/-- `Signed2930Transaction.parse`: requires `type: "0x1"`, a mandatory
access list, `nonce` as a hex string and `value` through the `Ether`
codec: first half of the fields. -/
def parse2930Part1 (j : Json) :
    Option (String × Int × String × Int × Int × String × String × String) := do
  let blockHash ← parseHexString (j.getD "blockHash")
  let blockNumber ← parseInteger (j.getD "blockNumber")
  let fromAddr ← parseAddress (j.getD "from")
  let gas ← parseWei (j.getD "gas")
  let gasPrice ← parseWei (j.getD "gasPrice")
  let hash ← parseHexString (j.getD "hash")
  let input ← parseHexString (j.getD "input")
  let nonce ← parseHexString (j.getD "nonce")
  return (blockHash, blockNumber, fromAddr, gas, gasPrice, hash, input, nonce)

/-- Second half of the `Signed2930Transaction` fields. -/
def parse2930Part2 (j : Json) :
    Option (Option String × Int × Int × List AccessListEntry × Int ×
      Option String × Option String × Option String × Int) := do
  let toAddr ← parseOptionalAddress (j.getD "to")
  let transactionIndex ← parseInteger (j.getD "transactionIndex")
  let value ← parseEtherCodec (j.getD "value")
  let accessList ← parseAccessList (j.getD "accessList")
  let chainId ← parseInteger (j.getD "chainId")
  let v ← parseHexValue (j.getD "v")
  let r ← parseHexValue (j.getD "r")
  let s ← parseHexValue (j.getD "s")
  let yParity ← parseInteger (j.getD "yParity")
  return (toAddr, transactionIndex, value, accessList, chainId, v, r, s, yParity)

/-- `Signed2930Transaction.parse`: requires `type: "0x1"`, a mandatory
access list, `nonce` as a hex string and `value` through the `Ether`
codec (the field split into two halves is an artifact of the embedding). -/
def parse2930Tx (j : Json) : Option Tx2930 := do
  guard j.isObj
  guard ((j.getD "type").isStr "0x1")
  let (blockHash, blockNumber, fromAddr, gas, gasPrice, hash, input, nonce) ← parse2930Part1 j
  let (toAddr, transactionIndex, value, accessList, chainId, v, r, s, yParity) ← parse2930Part2 j
  return ⟨blockHash, blockNumber, fromAddr, gas, gasPrice, hash, input, nonce, toAddr,
    transactionIndex, value, accessList, chainId, v, r, s, yParity⟩

/-- `Signed1559Transaction` payload (src/json-rpc.ts lines 56–87). -/
structure Tx1559 where
  blockHash : String
  blockNumber : Int
  fromAddr : String
  gas : Int
  gasPrice : Int
  maxFeePerGas : Int
  maxPriorityFeePerGas : Int
  hash : String
  input : String
  nonce : Int
  toAddr : Option String
  transactionIndex : Int
  value : Int
  accessList : Option (List AccessListEntry)
  chainId : Int
  v : Option String
  r : Option String
  s : Option String

/-- The `to` field of `Signed1559Transaction`:
`z.null().or(Address).or(OptionalAddress.transform(a => a ?? null))`. -/
def parse1559To (j : Json) : Option (Option String) :=
  match j with
  | .null => some none
  | _ =>
      match parseAddress j with
      | some a => some (some a)
      | none => parseOptionalAddress j

/-- `Signed1559Transaction.parse`: requires `type: "0x2"` with
`maxFeePerGas` / `maxPriorityFeePerGas` present and an optional access
list: first half of the fields. -/
def parse1559Part1 (j : Json) :
    Option (String × Int × String × Int × Int × Int × Int × String × String × Int) := do
  let blockHash ← parseHexString (j.getD "blockHash")
  let blockNumber ← parseInteger (j.getD "blockNumber")
  let fromAddr ← parseAddress (j.getD "from")
  let gas ← parseWei (j.getD "gas")
  let gasPrice ← parseWei (j.getD "gasPrice")
  let maxFeePerGas ← parseWei (j.getD "maxFeePerGas")
  let maxPriorityFeePerGas ← parseWei (j.getD "maxPriorityFeePerGas")
  let hash ← parseHexString (j.getD "hash")
  let input ← parseHexString (j.getD "input")
  let nonce ← parseInteger (j.getD "nonce")
  return (blockHash, blockNumber, fromAddr, gas, gasPrice, maxFeePerGas,
    maxPriorityFeePerGas, hash, input, nonce)

/-- Second half of the `Signed1559Transaction` fields. -/
def parse1559Part2 (j : Json) :
    Option (Option String × Int × Int × Option (List AccessListEntry) × Int ×
      Option String × Option String × Option String) := do
  let toAddr ← parse1559To (j.getD "to")
  let transactionIndex ← parseInteger (j.getD "transactionIndex")
  let value ← parseWei (j.getD "value")
  let accessList ← optField parseAccessList (j.getD "accessList")
  let chainId ← parseInteger (j.getD "chainId")
  let v ← parseHexValue (j.getD "v")
  let r ← parseHexValue (j.getD "r")
  let s ← parseHexValue (j.getD "s")
  return (toAddr, transactionIndex, value, accessList, chainId, v, r, s)

/-- `Signed1559Transaction.parse`: requires `type: "0x2"` with
`maxFeePerGas` / `maxPriorityFeePerGas` present and an optional access
list (the field split into two halves is an artifact of the embedding). -/
def parse1559Tx (j : Json) : Option Tx1559 := do
  guard j.isObj
  guard ((j.getD "type").isStr "0x2")
  let (blockHash, blockNumber, fromAddr, gas, gasPrice, maxFeePerGas,
    maxPriorityFeePerGas, hash, input, nonce) ← parse1559Part1 j
  let (toAddr, transactionIndex, value, accessList, chainId, v, r, s) ← parse1559Part2 j
  return ⟨blockHash, blockNumber, fromAddr, gas, gasPrice, maxFeePerGas, maxPriorityFeePerGas,
    hash, input, nonce, toAddr, transactionIndex, value, accessList, chainId, v, r, s⟩

/-- The transaction envelope union value. -/
inductive EipTx where
  | legacy (t : LegacyTx)
  | accessList (t : Tx2930)
  | feeMarket (t : Tx1559)

/-- `EipTransaction` (src/json-rpc.ts lines 113–118):
`z.discriminatedUnion("type", [SignedLegacyTransaction,
Signed2930Transaction, Signed1559Transaction])` — the `type` tag alone
selects the variant; an unknown or missing tag fails without trying any
variant. -/
def parseEipTransaction (j : Json) : Option EipTx :=
  match j.get "type" with
  | some (.str "0x0") => (parseLegacyTx j).map .legacy
  | some (.str "0x1") => (parse2930Tx j).map .accessList
  | some (.str "0x2") => (parse1559Tx j).map .feeMarket
  | _ => none

/-- The `Block` object payload (src/json-rpc.ts lines 120–143, the object
arm of the union — the union itself also accepts `null`). -/
structure BlockRec where
  difficulty : Int
  extraData : String
  gasLimit : Int
  gasUsed : Int
  hash : String
  logsBloom : String
  miner : String
  mixHash : String
  nonce : String
  number : Int
  parentHash : String
  receiptsRoot : String
  sha3Uncles : String
  size : Int
  stateRoot : String
  timestamp : Int
  totalDifficulty : Int
  transactions : List String
  transactionsRoot : String
  uncles : List String

/-- Block object fields, first third. -/
def parseBlockPart1 (j : Json) :
    Option (Int × String × Int × Int × String × String × String) := do
  let difficulty ← parseWei (j.getD "difficulty")
  let extraData ← parseHexString (j.getD "extraData")
  let gasLimit ← parseWei (j.getD "gasLimit")
  let gasUsed ← parseWei (j.getD "gasUsed")
  let hash ← parseHexString (j.getD "hash")
  let logsBloom ← parseHexString (j.getD "logsBloom")
  let miner ← parseAddress (j.getD "miner")
  return (difficulty, extraData, gasLimit, gasUsed, hash, logsBloom, miner)

/-- Block object fields, second third. -/
def parseBlockPart2 (j : Json) :
    Option (String × String × Int × String × String × String) := do
  let mixHash ← parseHexString (j.getD "mixHash")
  let nonce ← parseHexString (j.getD "nonce")
  let number ← parseInteger (j.getD "number")
  let parentHash ← parseHexString (j.getD "parentHash")
  let receiptsRoot ← parseHexString (j.getD "receiptsRoot")
  let sha3Uncles ← parseHexString (j.getD "sha3Uncles")
  return (mixHash, nonce, number, parentHash, receiptsRoot, sha3Uncles)

/-- `z.array(z.string())`. -/
def parseStringArray (j : Json) : Option (List String) :=
  match j with
  | .arr xs =>
      xs.mapM fun x =>
        match x with
        | .str s => some s
        | _ => none
  | _ => none

/-- `z.array(HexString)`. -/
def parseHexStringArray (j : Json) : Option (List String) :=
  match j with
  | .arr xs => xs.mapM parseHexString
  | _ => none

/-- Block object fields, last third (`transactions` as plain strings). -/
def parseBlockPart3 (j : Json) :
    Option (Int × String × Int × Int × List String × String × List String) := do
  let size ← parseInteger (j.getD "size")
  let stateRoot ← parseHexString (j.getD "stateRoot")
  let timestamp ← parseTimestamp (j.getD "timestamp")
  let totalDifficulty ← parseWei (j.getD "totalDifficulty")
  let transactions ← parseStringArray (j.getD "transactions")
  let transactionsRoot ← parseHexString (j.getD "transactionsRoot")
  let uncles ← parseHexStringArray (j.getD "uncles")
  return (size, stateRoot, timestamp, totalDifficulty, transactions, transactionsRoot, uncles)

/-- The object arm of the `Block` schema (all twenty fields; the split into
thirds is an artifact of the embedding). -/
def parseBlockObject (j : Json) : Option BlockRec := do
  guard j.isObj
  let (difficulty, extraData, gasLimit, gasUsed, hash, logsBloom, miner) ← parseBlockPart1 j
  let (mixHash, nonce, number, parentHash, receiptsRoot, sha3Uncles) ← parseBlockPart2 j
  let (size, stateRoot, timestamp, totalDifficulty, transactions, transactionsRoot, uncles) ←
    parseBlockPart3 j
  return ⟨difficulty, extraData, gasLimit, gasUsed, hash, logsBloom, miner, mixHash, nonce,
    number, parentHash, receiptsRoot, sha3Uncles, size, stateRoot, timestamp, totalDifficulty,
    transactions, transactionsRoot, uncles⟩

/-- `Block` (src/json-rpc.ts lines 120–143): the block object schema
`.or(z.null())` — a JSON `null` result is accepted and parses to `none`
(`z.null()` accepts only `null`, not a missing value). -/
def parseBlock (j : Json) : Option (Option BlockRec) :=
  match parseBlockObject j with
  | some b => some (some b)
  | none => match j with
    | .null => some none
    | _ => none

/-- The `BlockWithTransactions` object payload (src/json-rpc.ts lines
145–168): as `Block` but `transactions` is `z.array(EipTransaction)`. -/
structure BlockWithTxRec where
  difficulty : Int
  extraData : String
  gasLimit : Int
  gasUsed : Int
  hash : String
  logsBloom : String
  miner : String
  mixHash : String
  nonce : String
  number : Int
  parentHash : String
  receiptsRoot : String
  sha3Uncles : String
  size : Int
  stateRoot : String
  timestamp : Int
  totalDifficulty : Int
  transactions : List EipTx
  transactionsRoot : String
  uncles : List String

/-- Last third of the `BlockWithTransactions` fields (`transactions`
through the envelope union). -/
def parseBlockWithTxPart3 (j : Json) :
    Option (Int × String × Int × Int × List EipTx × String × List String) := do
  let size ← parseInteger (j.getD "size")
  let stateRoot ← parseHexString (j.getD "stateRoot")
  let timestamp ← parseTimestamp (j.getD "timestamp")
  let totalDifficulty ← parseWei (j.getD "totalDifficulty")
  let transactions ←
    match j.getD "transactions" with
    | .arr xs => xs.mapM parseEipTransaction
    | _ => none
  let transactionsRoot ← parseHexString (j.getD "transactionsRoot")
  let uncles ← parseHexStringArray (j.getD "uncles")
  return (size, stateRoot, timestamp, totalDifficulty, transactions, transactionsRoot, uncles)

/-- The object arm of the `BlockWithTransactions` schema. -/
def parseBlockWithTxObject (j : Json) : Option BlockWithTxRec := do
  guard j.isObj
  let (difficulty, extraData, gasLimit, gasUsed, hash, logsBloom, miner) ← parseBlockPart1 j
  let (mixHash, nonce, number, parentHash, receiptsRoot, sha3Uncles) ← parseBlockPart2 j
  let (size, stateRoot, timestamp, totalDifficulty, transactions, transactionsRoot, uncles) ←
    parseBlockWithTxPart3 j
  return ⟨difficulty, extraData, gasLimit, gasUsed, hash, logsBloom, miner, mixHash, nonce,
    number, parentHash, receiptsRoot, sha3Uncles, size, stateRoot, timestamp, totalDifficulty,
    transactions, transactionsRoot, uncles⟩

/-- `BlockWithTransactions` (src/json-rpc.ts lines 145–168): the object
schema `.or(z.null())`. -/
def parseBlockWithTransactions (j : Json) : Option (Option BlockWithTxRec) :=
  match parseBlockWithTxObject j with
  | some b => some (some b)
  | none => match j with
    | .null => some none
    | _ => none

/-- `serializeBlockIdentifier` / `ensureBlockIdentifier` (src/core.ts lines
97–100): a numeric block becomes `0x`-prefixed hex, a tag passes through. -/
def serializeBlockIdentifier (block : Sum Nat String) : String :=
  match block with
  | .inl n => "0x" ++ strOfBytes ((Nat.toDigits 16 n).map Char.toNat)
  | .inr tag => tag

/-- `Client.getBlock` (src/index.ts lines 660–668): call
`eth_getBlockByNumber` with `boolean: "false"` through `callJsonRpc`, then
validate through the `Block` schema; a schema failure throws a zod error. -/
def clientGetBlock (c : Client) (transport : Url → Json) (block : Sum Nat String)
    (w : FetchWorld) : Except ApiFailure (Option BlockRec) × FetchWorld :=
  let (res, w1) := clientCallJsonRpc c transport
    [("module", .str "proxy"), ("action", .str "eth_getBlockByNumber"),
     ("tag", .str (serializeBlockIdentifier block)), ("boolean", .str "false")] w
  match res with
  | .error e => (.error e, w1)
  | .ok payload =>
      match parseBlock payload with
      | some b => (.ok b, w1)
      | none => (.error .zodError, w1)

/-- `Client.getBlockWithTransactions` (src/index.ts lines 676–684): as
`getBlock` but with `boolean: "true"` and the `BlockWithTransactions`
schema. -/
def clientGetBlockWithTransactions (c : Client) (transport : Url → Json)
    (block : Sum Nat String) (w : FetchWorld) :
    Except ApiFailure (Option BlockWithTxRec) × FetchWorld :=
  let (res, w1) := clientCallJsonRpc c transport
    [("module", .str "proxy"), ("action", .str "eth_getBlockByNumber"),
     ("tag", .str (serializeBlockIdentifier block)), ("boolean", .str "true")] w
  match res with
  | .error e => (.error e, w1)
  | .ok payload =>
      match parseBlockWithTransactions payload with
      | some b => (.ok b, w1)
      | none => (.error .zodError, w1)

/-! ## Contract source-code schema (src/contract.ts)

`MultiFileSourceCode` (lines 102–133) unwraps Etherscan's double-brace
quirk: a `SourceCode` string beginning with a brace and ending with a brace
is stripped of exactly one leading and one trailing character
(`value.substring(1, value.length - 1)`), the remainder is run through
`JSON.parse`, and the parsed document must expose `language` and a
`sources` record mapping file names to `\x7b content \x7d` objects.  The
`SourceCode` field of `VerifiedContractSourceCode` (line 137) is
`MultiFileSourceCode.or(z.string())`, so anything the nested parse rejects
falls back to the flat string, verbatim.  The `JSON.parse` builtin is
modelled below (numbers restricted to integers, which the claims never
exercise). -/

/-- Skip JSON whitespace. -/
def skipWs (cs : List Char) : List Char :=
  cs.dropWhile fun c => c = ' ' ∨ c = '\t' ∨ c = '\n' ∨ c = '\r'

/-- Parse the remainder of a JSON string literal (after the opening quote),
handling the standard escapes. -/
def jparseStr : List Char → Option (List Char × List Char)
  | [] => none
  | '"' :: rest => some ([], rest)
  | '\\' :: e :: rest =>
      let esc : Option Char :=
        match e with
        | '"' => some '"'
        | '\\' => some '\\'
        | '/' => some '/'
        | 'b' => some (Char.ofNat 8)
        | 'f' => some (Char.ofNat 12)
        | 'n' => some '\n'
        | 'r' => some '\r'
        | 't' => some '\t'
        | _ => none
      match esc with
      | some c => (jparseStr rest).map fun p => (c :: p.1, p.2)
      | none =>
          match e, rest with
          | 'u', h1 :: h2 :: h3 :: h4 :: rest2 =>
              if [h1, h2, h3, h4].all fun c => isHexByte c.toNat then
                (jparseStr rest2).map fun p =>
                  (Char.ofNat (hexToNat ([h1, h2, h3, h4].map Char.toNat)) :: p.1, p.2)
              else none
          | _, _ => none
  | c :: rest => (jparseStr rest).map fun p => (c :: p.1, p.2)

/-- Parse a JSON integer literal (the model restricts `JSON.parse` numbers
to integers; fractional or exponent forms are not produced by the inputs
considered here). -/
def jparseNum (cs : List Char) : Option (Int × List Char) :=
  let (neg, cs1) := match cs with
    | '-' :: rest => (true, rest)
    | _ => (false, cs)
  let digits := cs1.takeWhile fun c => isDigitByte c.toNat
  let rest := cs1.dropWhile fun c => isDigitByte c.toNat
  if digits = [] then none
  else
    match rest with
    | '.' :: _ => none
    | 'e' :: _ => none
    | 'E' :: _ => none
    | _ => some ((if neg then -1 else 1) * (digitsToNat (digits.map Char.toNat) : Int), rest)

mutual

/-- Fuelled recursive-descent `JSON.parse`: one value. -/
def jparseVal : Nat → List Char → Option (Json × List Char)
  | 0, _ => none
  | fuel + 1, cs =>
      match skipWs cs with
      | 'n' :: 'u' :: 'l' :: 'l' :: rest => some (.null, rest)
      | 't' :: 'r' :: 'u' :: 'e' :: rest => some (.bool true, rest)
      | 'f' :: 'a' :: 'l' :: 's' :: 'e' :: rest => some (.bool false, rest)
      | '"' :: rest => (jparseStr rest).map fun p => (.str (String.mk p.1), p.2)
      | '[' :: rest =>
          (match skipWs rest with
           | ']' :: rest2 => some (.arr [], rest2)
           | _ => (jparseItems fuel rest).map fun p => (.arr p.1, p.2))
      | '\x7b' :: rest =>
          (match skipWs rest with
           | '\x7d' :: rest2 => some (.obj [], rest2)
           | _ => (jparseMembers fuel rest).map fun p => (.obj p.1, p.2))
      | rest => (jparseNum rest).map fun p => (.num p.1, p.2)

/-- Fuelled recursive-descent `JSON.parse`: array items. -/
def jparseItems : Nat → List Char → Option (List Json × List Char)
  | 0, _ => none
  | fuel + 1, cs =>
      match jparseVal fuel cs with
      | none => none
      | some (v, rest) =>
          match skipWs rest with
          | ',' :: rest2 => (jparseItems fuel rest2).map fun p => (v :: p.1, p.2)
          | ']' :: rest2 => some ([v], rest2)
          | _ => none

/-- Fuelled recursive-descent `JSON.parse`: object members. -/
def jparseMembers : Nat → List Char → Option (List (String × Json) × List Char)
  | 0, _ => none
  | fuel + 1, cs =>
      match skipWs cs with
      | '"' :: rest =>
          match jparseStr rest with
          | none => none
          | some (key, rest1) =>
              match skipWs rest1 with
              | ':' :: rest2 =>
                  match jparseVal fuel rest2 with
                  | none => none
                  | some (v, rest3) =>
                      match skipWs rest3 with
                      | ',' :: rest4 =>
                          (jparseMembers fuel rest4).map fun p =>
                            ((String.mk key, v) :: p.1, p.2)
                      | '\x7d' :: rest4 => some ([(String.mk key, v)], rest4)
                      | _ => none
              | _ => none
      | _ => none

end

/-- `JSON.parse` on a character list: one value and trailing whitespace
only. -/
def jsonParseChars (cs : List Char) : Option Json :=
  match jparseVal (cs.length + 1) cs with
  | some (v, rest) => if (skipWs rest).isEmpty then some v else none
  | none => none

/-- `JSON.parse` on a whole string. -/
def jsonParse (s : String) : Option Json :=
  jsonParseChars s.data

/-- One entry of the parsed `sources` record, already renamed by the
`transform` to a name/content pair. -/
structure SourceFile where
  name : String
  content : String

/-- The document yielded by `MultiFileSourceCode`: `language`, the
`sources` record transformed into a list of name/content pairs, and the
optional passthrough `settings` object. -/
structure MultiFileDoc where
  language : String
  sources : List SourceFile
  settings : Option Json

/-- The `sources` record: `z.record(z.object(\x7b content: z.string() \x7d))`
transformed into a list of `\x7b name, content \x7d` pairs. -/
def parseSourcesRecord (j : Json) : Option (List SourceFile) :=
  match j with
  | .obj fields =>
      fields.mapM fun kv =>
        match kv.2 with
        | .obj _ =>
            match kv.2.get "content" with
            | some (.str c) => some ⟨kv.1, c⟩
            | _ => none
        | _ => none
  | _ => none

/-- The optional `settings` field: `z.object(\x7b\x7d).passthrough().optional()`. -/
def parseSettingsField (j : Json) : Option (Option Json) :=
  match j with
  | .undefined => some none
  | .obj fields => some (some (.obj fields))
  | _ => none

/-- `MultiFileSourceCode` (src/contract.ts lines 102–133): require a string
that starts with a brace and ends with a brace, strip exactly one leading
and one trailing character, `JSON.parse` the remainder, then validate
`language` / `sources` / `settings`. -/
def parseMultiFileSourceCode (j : Json) : Option MultiFileDoc :=
  match j with
  | .str value =>
      if value.data.headD ' ' = '\x7b' ∧ value.data.getLast? = some '\x7d' then
        match jsonParseChars ((value.data.drop 1).dropLast) with
        | none => none
        | some parsed =>
            match parsed.getD "language" with
            | .str language =>
                match parseSourcesRecord (parsed.getD "sources"),
                    parseSettingsField (parsed.getD "settings") with
                | some sources, some settings => some ⟨language, sources, settings⟩
                | _, _ => none
            | _ => none
      else none
  | _ => none

/-- The validated `SourceCode` field: either the unwrapped multi-file
document or the flat string. -/
inductive SourceCodeField where
  | multi (doc : MultiFileDoc)
  | flat (code : String)

/-- The `SourceCode` field schema of `VerifiedContractSourceCode`
(src/contract.ts line 137): `MultiFileSourceCode.or(z.string())` — the
nested parse is attempted first, and any string it rejects (including one
not wrapped in braces, for which no JSON parse is attempted) is returned
verbatim by the `z.string()` arm. -/
def parseSourceCodeField (j : Json) : Option SourceCodeField :=
  match parseMultiFileSourceCode j with
  | some doc => some (.multi doc)
  | none =>
      match j with
      | .str s => some (.flat s)
      | _ => none

/-- A concrete fee-market (EIP-1559) wire payload: `type: "0x2"` with
`maxFeePerGas` / `maxPriorityFeePerGas` present. -/
def feePayload : Json :=
  .obj [("type", .str "0x2"), ("blockHash", .str "0xaa"), ("blockNumber", .str "0x1"),
    ("from", .str "0x5aaeb6053f3e94c9b9a09f33669435e7ef1beaed"), ("gas", .str "0x5208"),
    ("gasPrice", .str "0x1"), ("maxFeePerGas", .str "0x2"), ("maxPriorityFeePerGas", .str "0x1"),
    ("hash", .str "0xbb"), ("input", .str "0x"), ("nonce", .str "0x0"), ("to", .null),
    ("transactionIndex", .str "0x0"), ("value", .str "0x0"), ("chainId", .str "0x1"),
    ("v", .str "0x1b"), ("r", .str "0xcc"), ("s", .str "0xdd")]

/-- The typed value `feePayload` validates to under `Signed1559Transaction`. -/
def feeTx : Tx1559 :=
  ⟨"0xaa", 1, "0x5aAeb6053F3E94C9b9A09f33669435E7Ef1BeAed", 21000, 1, 2, 1, "0xbb", "0x", 0,
    none, 0, 0, none, 1, some "0x1b", some "0xcc", some "0xdd"⟩

/-- Modelled from the spec: "parameters are filtered to drop undefined/null
entries" — the filtering step the spec ascribes to the key derivation,
stated here only to compare the derivation against it. -/
def dropNullish (p : List (String × Prim)) : List (String × Prim) :=
  p.filter fun kv => kv.2 ≠ .undefined ∧ kv.2 ≠ .null

/-- A concrete failing REST envelope (`status: "0"`). -/
def errEnvelope : Json :=
  .obj [("status", .str "0"), ("message", .str "NOTOK"), ("result", .str "rate limited")]

/-- Concrete request parameters for the `ethsupply` endpoint. -/
def sampleParams : List (String × Prim) :=
  [("module", .str "stats"), ("action", .str "ethsupply")]

/-! ## Helper lemmas -/

/-- Characters with equal code points are equal. -/
theorem char_toNat_inj {a b : Char} (h : a.toNat = b.toNat) : a = b := by
  have := congrArg Char.ofNat h
  rwa [Char.ofNat_toNat, Char.ofNat_toNat] at this

/-- `strBytes` is injective. -/
theorem strBytes_inj {s t : String} (h : strBytes s = strBytes t) : s = t := by
  cases s with
  | mk ds =>
      cases t with
      | mk dt =>
          have hd : ds = dt := by
            have h2 := h
            unfold strBytes at h2
            simp only [String.data] at h2
            exact List.map_injective_iff.mpr (fun a b hab => char_toNat_inj hab) h2
          simp [hd]

/-- `lexLe` is total. -/
theorem lexLe_total : ∀ x y : List Nat, lexLe x y = true ∨ lexLe y x = true := by
  intro x
  induction x with
  | nil => intro y; left; simp [lexLe]
  | cons a as ih =>
      intro y
      cases y with
      | nil => right; simp [lexLe]
      | cons b bs =>
          by_cases hab : a < b
          · left; simp [lexLe, hab]
          · by_cases hba : b < a
            · right; simp [lexLe, hba]
            · rcases ih bs with h | h
              · left; simp [lexLe, hab, hba, h]
              · right; simp [lexLe, hab, hba, h]

/-- `lexLe` is transitive. -/
theorem lexLe_trans : ∀ x y z : List Nat,
    lexLe x y = true → lexLe y z = true → lexLe x z = true := by
  intro x
  induction x with
  | nil => intro y z _ _; simp [lexLe]
  | cons a as ih =>
      intro y z hxy hyz
      cases y with
      | nil => simp [lexLe] at hxy
      | cons b bs =>
          cases z with
          | nil => simp [lexLe] at hyz
          | cons c cs =>
              by_cases hab : a < b
              · by_cases hbc : b < c
                · have hac : a < c := Nat.lt_trans hab hbc
                  simp [lexLe, hac]
                · by_cases hcb : c < b
                  · simp [lexLe, hbc, hcb] at hyz
                  · have hbceq : b = c := by omega
                    subst hbceq
                    simp [lexLe, hab]
              · by_cases hba : b < a
                · simp [lexLe, hab, hba] at hxy
                · have habeq : a = b := by omega
                  subst habeq
                  simp only [lexLe, lt_self_iff_false, if_false] at hxy
                  by_cases hac : a < c
                  · simp [lexLe, hac]
                  · by_cases hca : c < a
                    · simp [lexLe, hac, hca] at hyz
                    · have haceq : a = c := by omega
                      subst haceq
                      simp only [lexLe, lt_self_iff_false, if_false] at hyz ⊢
                      exact ih bs cs hxy hyz

/-- `lexLe` is antisymmetric. -/
theorem lexLe_antisymm : ∀ x y : List Nat,
    lexLe x y = true → lexLe y x = true → x = y := by
  intro x
  induction x with
  | nil =>
      intro y _ hyx
      cases y with
      | nil => rfl
      | cons b bs => simp [lexLe] at hyx
  | cons a as ih =>
      intro y hxy hyx
      cases y with
      | nil => simp [lexLe] at hxy
      | cons b bs =>
          by_cases hab : a < b
          · simp [lexLe, hab, Nat.lt_asymm hab] at hyx
          · by_cases hba : b < a
            · simp [lexLe, hab, hba] at hxy
            · have habeq : a = b := by omega
              subst habeq
              simp only [lexLe, lt_self_iff_false, if_false] at hxy hyx
              rw [ih bs hxy hyx]

/-- Key antisymmetry: mutually `keyLe` entries share their key. -/
theorem keyLe_antisymm {a b : String × Prim} (h1 : keyLe a b = true)
    (h2 : keyLe b a = true) : a.1 = b.1 :=
  strBytes_inj (lexLe_antisymm _ _ h1 h2)

/-- `insertSorted` is a permutation of consing. -/
theorem insertSorted_perm (kv : String × Prim) :
    ∀ l : List (String × Prim), List.Perm (insertSorted kv l) (kv :: l) := by
  intro l
  induction l with
  | nil => simp [insertSorted]
  | cons a t ih =>
      by_cases h : keyLe kv a
      · simp [insertSorted, h]
      · simp only [insertSorted, h, if_false, Bool.false_eq_true]
        exact (List.Perm.cons a ih).trans (List.Perm.swap kv a t)

/-- `sortByKey` is a permutation of its input. -/
theorem sortByKey_perm : ∀ l : List (String × Prim), List.Perm (sortByKey l) l := by
  intro l
  induction l with
  | nil => simp [sortByKey]
  | cons a t ih =>
      exact (insertSorted_perm a (sortByKey t)).trans (List.Perm.cons a ih)

/-- Membership in `insertSorted`. -/
theorem mem_insertSorted {x kv : String × Prim} {l : List (String × Prim)}
    (h : x ∈ insertSorted kv l) : x = kv ∨ x ∈ l := by
  have := (insertSorted_perm kv l).mem_iff.mp h
  simpa using this

/-- `insertSorted` preserves sortedness. -/
theorem insertSorted_sorted (kv : String × Prim) :
    ∀ l : List (String × Prim), l.Pairwise (fun a b => keyLe a b = true) →
      (insertSorted kv l).Pairwise (fun a b => keyLe a b = true) := by
  intro l
  induction l with
  | nil => intro _; simp [insertSorted]
  | cons a t ih =>
      intro hs
      rcases List.pairwise_cons.mp hs with ⟨ha, ht⟩
      by_cases h : keyLe kv a
      · simp only [insertSorted, h, if_true]
        refine List.pairwise_cons.mpr ⟨?_, hs⟩
        intro x hx
        rcases List.mem_cons.mp hx with rfl | hx
        · exact h
        · exact lexLe_trans _ _ _ h (ha x hx)
      · have hak : keyLe a kv = true := by
          rcases lexLe_total (strBytes kv.1) (strBytes a.1) with hh | hh
          · exact absurd hh h
          · exact hh
        simp only [insertSorted, h, if_false, Bool.false_eq_true]
        refine List.pairwise_cons.mpr ⟨?_, ih ht⟩
        intro x hx
        rcases mem_insertSorted hx with rfl | hx
        · exact hak
        · exact ha x hx

/-- `sortByKey` sorts. -/
theorem sortByKey_sorted : ∀ l : List (String × Prim),
    (sortByKey l).Pairwise (fun a b => keyLe a b = true) := by
  intro l
  induction l with
  | nil => simp [sortByKey]
  | cons a t ih => exact insertSorted_sorted a (sortByKey t) ih

/-- Two key-sorted permutations of each other with duplicate-free keys are
equal. -/
theorem sorted_perm_eq : ∀ (l1 l2 : List (String × Prim)), List.Perm l1 l2 →
    l1.Pairwise (fun a b => keyLe a b = true) →
    l2.Pairwise (fun a b => keyLe a b = true) →
    (l1.map Prod.fst).Nodup → l1 = l2 := by
  intro l1
  induction l1 with
  | nil =>
      intro l2 hperm _ _ _
      exact (hperm.symm.eq_nil).symm
  | cons a t ih =>
      intro l2 hperm hs1 hs2 hnodup
      cases l2 with
      | nil => exact absurd hperm.eq_nil (by simp)
      | cons b u =>
          rcases List.pairwise_cons.mp hs1 with ⟨ha, ht⟩
          rcases List.pairwise_cons.mp hs2 with ⟨hb, hu⟩
          rw [List.map_cons] at hnodup
          rcases List.nodup_cons.mp hnodup with ⟨hna, hnt⟩
          have hab : a = b := by
            by_contra hne
            have ha2 : a ∈ b :: u := hperm.mem_iff.mp (List.mem_cons_self a t)
            have hb1 : b ∈ a :: t := hperm.mem_iff.mpr (List.mem_cons_self b u)
            have ha_u : a ∈ u := by
              rcases List.mem_cons.mp ha2 with h | h
              · exact absurd h hne
              · exact h
            have hb_t : b ∈ t := by
              rcases List.mem_cons.mp hb1 with h | h
              · exact absurd h.symm hne
              · exact h
            have h1 : keyLe a b = true := ha b hb_t
            have h2 : keyLe b a = true := hb a ha_u
            have hkey : a.1 = b.1 := keyLe_antisymm h1 h2
            exact hna (hkey ▸ List.mem_map_of_mem Prod.fst hb_t)
          subst hab
          have htu : List.Perm t u := hperm.cons_inv
          rw [ih u htu ht hu hnt]

/-- For duplicate-free keys, sorting is permutation-invariant. -/
theorem sortByKey_eq_of_perm {p q : List (String × Prim)} (h : List.Perm p q)
    (hnodup : (p.map Prod.fst).Nodup) : sortByKey p = sortByKey q := by
  have hperm : List.Perm (sortByKey p) (sortByKey q) :=
    (sortByKey_perm p).trans (h.trans (sortByKey_perm q).symm)
  have hn : ((sortByKey p).map Prod.fst).Nodup :=
    ((sortByKey_perm p).map Prod.fst).nodup_iff.mpr hnodup
  exact sorted_perm_eq _ _ hperm (sortByKey_sorted p) (sortByKey_sorted q) hn

/-- The default cache key is insertion-order independent on duplicate-free
parameter maps. -/
theorem defaultSerialize_eq_of_perm {p q : List (String × Prim)} (h : List.Perm p q)
    (hnodup : (p.map Prod.fst).Nodup) : defaultSerialize p = defaultSerialize q := by
  unfold defaultSerialize objectHashParams
  rw [sortByKey_eq_of_perm h hnodup, h.length_eq]

/-- Looking up the key just replaced finds the new value (replacement
branch). -/
theorem lookup_replaceAll (k : String) (v : Json) :
    ∀ store : List (String × Json), store.any (fun kv => decide (kv.1 = k)) = true →
      (store.map fun kv => if kv.1 = k then (k, v) else kv).lookup k = some v := by
  intro store
  induction store with
  | nil => simp
  | cons a l ih =>
      intro h
      by_cases ha : a.1 = k
      · rw [List.map_cons, if_pos ha]
        simp [List.lookup]
      · have hk : (k == a.1) = false := by
          simp [Ne.symm ha]
        rw [List.map_cons, if_neg ha]
        simp only [List.lookup, hk]
        apply ih
        simpa [ha] using h

/-- Looking up the key just appended finds the new value (append branch). -/
theorem lookup_append_single (k : String) (v : Json) :
    ∀ store : List (String × Json), store.any (fun kv => decide (kv.1 = k)) = false →
      (store ++ [(k, v)]).lookup k = some v := by
  intro store
  induction store with
  | nil => simp [List.lookup]
  | cons a l ih =>
      intro h
      simp only [List.any_cons, Bool.or_eq_false_iff] at h
      have ha : ¬ a.1 = k := by simpa using h.1
      have hk : (k == a.1) = false := by simp [Ne.symm ha]
      simp only [List.cons_append, List.lookup, hk]
      exact ih h.2

/-- After `setItem`, the stored key reads back the stored value. -/
theorem lookup_storageSetItem_self (store : List (String × Json)) (k : String) (v : Json) :
    (storageSetItem store k v).lookup k = some v := by
  unfold storageSetItem
  split
  · next h => exact lookup_replaceAll k v store h
  · next h =>
      apply lookup_append_single k v store
      simp only [Bool.not_eq_true] at h
      exact h

/-- The key set written by `setItem` does not depend on the stored value. -/
theorem keys_storageSetItem (store : List (String × Json)) (k : String) (v v2 : Json) :
    (storageSetItem store k v).map Prod.fst = (storageSetItem store k v2).map Prod.fst := by
  unfold storageSetItem
  split
  · next h =>
      simp only [List.map_map]
      apply List.map_congr_left
      intro kv _
      simp only [Function.comp_apply]
      by_cases hk : kv.1 = k
      · rw [if_pos hk, if_pos hk]
      · rw [if_neg hk, if_neg hk]
  · next h => simp

/-- `Client.fetch` on a cache miss: the transport is invoked once and its
raw response is stored under the derived key. -/
theorem clientFetch_miss (u : String) (ak : Option String) (ca : Cache) (t : Url → Json)
    (p : List (String × Prim)) (w : FetchWorld)
    (hmiss : ((w.store.lookup (ca.serialize p)).getD .null).truthy = false) :
    clientFetch ⟨u, some ca, ak⟩ t p w =
      (t (encodeQueryParams ⟨u, some ca, ak⟩ p),
       ⟨storageSetItem w.store (ca.serialize p) (t (encodeQueryParams ⟨u, some ca, ak⟩ p)),
        w.calls + 1⟩) := by
  unfold clientFetch
  simp [hmiss]

/-- `Client.fetch` on a truthy cache hit: the stored value is returned and
the world is untouched. -/
theorem clientFetch_hit (u : String) (ak : Option String) (ca : Cache) (t : Url → Json)
    (p : List (String × Prim)) (w : FetchWorld) (v : Json)
    (hhit : w.store.lookup (ca.serialize p) = some v) (ht : v.truthy = true) :
    clientFetch ⟨u, some ca, ak⟩ t p w = (v, w) := by
  unfold clientFetch
  simp [hhit, ht]

/-! ## Claim theorems -/

/-- C5 (counterexample): the claim says an odd count of hex digits after the
`0x` prefix is rejected by both codecs; in fact `"0x1"` — one hex digit —
is accepted by both `HexValue` and `HexString` (the shared regular
expression carries no length-parity constraint). -/
theorem hexOddLengthAccepted :
    parseHexValue (.str "0x1") = some (some "0x1") ∧
      parseHexString (.str "0x1") = some "0x1" ∧
      parseHexValue (.str "0x1") ≠ none ∧ parseHexString (.str "0x1") ≠ none := by
  refine ⟨by decide, by decide, by decide, by decide⟩

/-- C5 (amended): `"0x"` parses as absent under `HexValue` and as the
empty-but-present string under `HexString`; an invalid hex digit
(`"0xG"`) is rejected by both; and every string matching the shared
regular expression `^0x[0-9a-fA-F]*$` — with any digit count, even or odd —
is accepted by both codecs. -/
theorem hexValidityBoundary :
    (parseHexValue (.str "0x") = some none ∧ parseHexString (.str "0x") = some "0x") ∧
      (parseHexValue (.str "0xG") = none ∧ parseHexString (.str "0xG") = none) ∧
      ∀ s : String, matchesHexRegex s = true →
        parseHexString (.str s) = some s ∧
          (s.length ≠ 2 → parseHexValue (.str s) = some (some s)) := by
  refine ⟨⟨by decide, by decide⟩, ⟨by decide, by decide⟩, ?_⟩
  intro s hs
  refine ⟨by simp [parseHexString, hs], ?_⟩
  intro hlen
  simp [parseHexValue, hs, hlen]

/-- C5 (witness). -/
theorem hexValidityBoundary_witness :
    parseHexString (.str "0x123") = some "0x123" ∧
      parseHexValue (.str "0x123") = some (some "0x123") :=
  ⟨(hexValidityBoundary.2.2 "0x123" (by decide)).1,
   (hexValidityBoundary.2.2 "0x123" (by decide)).2 (by decide)⟩

/-- C3 (counterexample): on the envelope
`\x7b status: "0", message: "NOTOK", result: "rate limited" \x7d` the
historical `EtherScanClient.callApi` (src/etherscan.ts line 1070) throws
`new Error(apiResponse.message)`, so the raised error carries `"NOTOK"` —
the message field — not `"rate limited"` as the claim states. -/
theorem etherScanErrorUsesMessage :
    etherScanCallApi "https://api.etherscan.io/api" "key"
        (fun _ => .obj [("status", .str "0"), ("message", .str "NOTOK"),
          ("result", .str "rate limited")])
        [("module", .str "stats"), ("action", .str "ethsupply")] =
      .error (.remote "NOTOK") ∧
      ApiFailure.remote "NOTOK" ≠ ApiFailure.remote "rate limited" := by
  exact ⟨rfl, by decide⟩

/-- C3 (amended): unwrapping a status-`"1"` envelope returns the result
payload unchanged in both clients; on a status-`"0"` envelope the current
`Client.callApi` (src/index.ts line 970) throws an error carrying the
`result` string, while the historical `EtherScanClient.callApi`
(src/etherscan.ts line 1070) throws an error carrying the `message`
string. -/
theorem restEnvelopeUnwrap (u k2 : String) (akey : Option String)
    (p : List (String × Prim)) (w : FetchWorld) (m r : String) (x : Json) :
    (clientCallApi ⟨u, none, akey⟩
        (fun _ => .obj [("status", .str "1"), ("message", .str m), ("result", x)]) p w).1 =
      .ok x ∧
    (clientCallApi ⟨u, none, akey⟩
        (fun _ => .obj [("status", .str "0"), ("message", .str m), ("result", .str r)]) p w).1 =
      .error (.remote r) ∧
    etherScanCallApi u k2
        (fun _ => .obj [("status", .str "1"), ("message", .str m), ("result", x)]) p =
      .ok x ∧
    etherScanCallApi u k2
        (fun _ => .obj [("status", .str "0"), ("message", .str m), ("result", .str r)]) p =
      .error (.remote m) := by
  refine ⟨rfl, rfl, rfl, rfl⟩

/-- C10: the `Block` and `BlockWithTransactions` schemas accept a JSON
`null` result (their unions end in `.or(z.null())`), and the block-lookup
facade methods return that `null` to the caller instead of raising a
validation error. -/
theorem blockNullAccepted :
    (parseBlock Json.null = some none ∧ parseBlockWithTransactions Json.null = some none) ∧
      ∀ (u : String) (ak : Option String) (t : Url → Json) (blk : Sum Nat String)
        (w : FetchWorld),
        (∀ url, t url = .obj [("jsonrpc", .str "2.0"), ("id", .num 1), ("result", .null)]) →
        (clientGetBlock ⟨u, none, ak⟩ t blk w).1 = .ok none ∧
        (clientGetBlockWithTransactions ⟨u, none, ak⟩ t blk w).1 = .ok none := by
  refine ⟨⟨rfl, rfl⟩, ?_⟩
  intro u ak t blk w h
  unfold clientGetBlock clientGetBlockWithTransactions clientCallJsonRpc clientFetch
  simp [h]
  constructor <;> rfl

/-- C10 (witness). -/
theorem blockNullAccepted_witness :
    (clientGetBlock ⟨"https://api.etherscan.io/api", none, none⟩
        (fun _ => .obj [("jsonrpc", .str "2.0"), ("id", .num 1), ("result", .null)])
        (.inr "latest") freshWorld).1 = .ok none ∧
    (clientGetBlockWithTransactions ⟨"https://api.etherscan.io/api", none, none⟩
        (fun _ => .obj [("jsonrpc", .str "2.0"), ("id", .num 1), ("result", .null)])
        (.inr "latest") freshWorld).1 = .ok none :=
  blockNullAccepted.2 "https://api.etherscan.io/api" none _ (.inr "latest") freshWorld
    (fun _ => rfl)

/-- C9: a `SourceCode` string that does not both begin with a brace and end
with a brace is rejected by `MultiFileSourceCode` before any JSON parsing
and is returned verbatim by the `z.string()` arm; a brace-wrapped string is
stripped of exactly one leading and one trailing brace and the remainder is
parsed as the nested multi-file document, yielding the sources list. -/
theorem sourceCodeUnwrap :
    (∀ s : String,
      ¬ (s.data.headD ' ' = '\x7b' ∧ s.data.getLast? = some '\x7d') →
      parseMultiFileSourceCode (.str s) = none ∧
        parseSourceCodeField (.str s) = some (.flat s)) ∧
    parseSourceCodeField
        (.str "\x7b\x7b\"language\":\"Solidity\",\"sources\":\x7b\"a.sol\":\x7b\"content\":\"pragma\"\x7d\x7d\x7d\x7d") =
      some (.multi ⟨"Solidity", [⟨"a.sol", "pragma"⟩], none⟩) := by
  constructor
  · intro s h
    have hm : parseMultiFileSourceCode (.str s) = none := by
      simp only [parseMultiFileSourceCode]
      rw [if_neg h]
    refine ⟨hm, ?_⟩
    unfold parseSourceCodeField
    simp [hm]
  · rfl

/-- C9 (witness). -/
theorem sourceCodeUnwrap_witness :
    parseMultiFileSourceCode (.str "pragma solidity;") = none ∧
      parseSourceCodeField (.str "pragma solidity;") = some (.flat "pragma solidity;") :=
  sourceCodeUnwrap.1 "pragma solidity;" (by decide)

set_option maxRecDepth 200000 in
set_option maxHeartbeats 2000000 in
/-- C8: the transaction-envelope union discriminates only on the `type`
tag: the concrete fee-market payload (tag `"0x2"`, `maxFeePerGas` present)
validates as `Signed1559Transaction` and as the fee-market arm of
`EipTransaction`, and is rejected by the legacy and access-list schemas
(their `type` literals do not match); and any payload without a `type`
field is rejected by all three schemas and by the union. -/
theorem eipTransactionDiscrimination :
    (parse1559Tx feePayload = some feeTx ∧
      parseEipTransaction feePayload = some (.feeMarket feeTx) ∧
      parseLegacyTx feePayload = none ∧ parse2930Tx feePayload = none) ∧
    ∀ j : Json, j.get "type" = none →
      parseLegacyTx j = none ∧ parse2930Tx j = none ∧ parse1559Tx j = none ∧
        parseEipTransaction j = none := by
  constructor
  · exact ⟨rfl, rfl, rfl, rfl⟩
  · intro j h
    cases j with
    | obj fields =>
        have h2 : List.lookup "type" fields = none := by simpa [Json.get] using h
        have htyp : (Json.obj fields).getD "type" = .undefined := by
          simp [Json.getD, Json.get, h2]
        refine ⟨?_, ?_, ?_, ?_⟩
        · unfold parseLegacyTx
          rw [htyp]
          rfl
        · unfold parse2930Tx
          rw [htyp]
          rfl
        · unfold parse1559Tx
          rw [htyp]
          rfl
        · unfold parseEipTransaction
          rw [show (Json.obj fields).get "type" = none from h]
    | null => exact ⟨rfl, rfl, rfl, rfl⟩
    | undefined => exact ⟨rfl, rfl, rfl, rfl⟩
    | bool b => exact ⟨rfl, rfl, rfl, rfl⟩
    | num n => exact ⟨rfl, rfl, rfl, rfl⟩
    | str s => exact ⟨rfl, rfl, rfl, rfl⟩
    | arr xs => exact ⟨rfl, rfl, rfl, rfl⟩

/-- C8 (witness). -/
theorem eipTransactionDiscrimination_witness :
    parseLegacyTx (.obj []) = none ∧ parse2930Tx (.obj []) = none ∧
      parse1559Tx (.obj []) = none ∧ parseEipTransaction (.obj []) = none :=
  eipTransactionDiscrimination.2 (.obj []) rfl

/-- Entries with a different name survive `URLSearchParams.set`. -/
theorem mem_searchParamsSet_ne {e : String × String} {q : List (String × String)}
    (he : e ∈ q) {k v : String} (hk : e.1 ≠ k) : e ∈ searchParamsSet q k v := by
  unfold searchParamsSet
  split
  · next h =>
      refine List.mem_map.mpr ⟨e, he, ?_⟩
      rw [if_neg hk]
  · next h => exact List.mem_append_left _ he

/-- The `apikey` pair placed on the URL survives the parameter fold of
`encodeQueryParams`. -/
theorem apikey_mem_fold (k : String) :
    ∀ (p : List (String × Prim)) (b : String) (q : List (String × String)),
      ("apikey", k) ∈ q → (∀ kv ∈ p, kv.1 ≠ "apikey") →
      ("apikey", k) ∈
        (p.foldl
          (fun u kv =>
            match kv.2 with
            | .undefined => u
            | .null => u
            | v => ⟨u.base, searchParamsSet u.query kv.1 v.toStr⟩)
          (⟨b, q⟩ : Url)).query := by
  intro p
  induction p with
  | nil => intro b q hq _; simpa using hq
  | cons kv p ih =>
      intro b q hq hp
      have hkv : kv.1 ≠ "apikey" := hp kv (List.mem_cons_self kv p)
      have hp2 : ∀ e ∈ p, e.1 ≠ "apikey" := fun e he => hp e (List.mem_cons_of_mem kv he)
      rw [List.foldl_cons]
      cases hv : kv.2 with
      | undefined => exact ih b q hq hp2
      | null => exact ih b q hq hp2
      | bool x =>
          exact ih b _ (mem_searchParamsSet_ne hq (Ne.symm hkv)) hp2
      | str x =>
          exact ih b _ (mem_searchParamsSet_ne hq (Ne.symm hkv)) hp2
      | num x =>
          exact ih b _ (mem_searchParamsSet_ne hq (Ne.symm hkv)) hp2

/-- C1 (counterexample): with the default cache, a call whose envelope
reports failure (`status: "0"`) throws — yet the raw failure envelope has
been stored in the cache under the request's key, because `Client.fetch`
persists the transport response before `callApi` unwraps the envelope. -/
theorem failedCallPollutesCache :
    (clientCallApi ⟨"https://api.etherscan.io/api", some createCache, none⟩
        (fun _ => errEnvelope) sampleParams freshWorld).1 =
      .error (.remote "rate limited") ∧
    (clientCallApi ⟨"https://api.etherscan.io/api", some createCache, none⟩
        (fun _ => errEnvelope) sampleParams freshWorld).2.store.lookup
        (createCache.serialize sampleParams) = some errEnvelope ∧
    (clientCallApi ⟨"https://api.etherscan.io/api", some createCache, none⟩
        (fun _ => errEnvelope) sampleParams freshWorld).2.store.lookup
        (createCache.serialize sampleParams) ≠ none := by
  have hrun : clientCallApi ⟨"https://api.etherscan.io/api", some createCache, none⟩
      (fun _ => errEnvelope) sampleParams freshWorld =
      (.error (.remote "rate limited"),
       ⟨[(createCache.serialize sampleParams, errEnvelope)], 1⟩) := rfl
  refine ⟨by rw [hrun], ?_, ?_⟩
  · rw [hrun]
    simp [List.lookup]
  · rw [hrun]
    simp [List.lookup]

/-- C1 (amended): on a cache miss, `Client.fetch` stores the raw transport
response before the envelope is inspected; a call whose envelope reports
failure therefore throws the remote error *and* leaves the failure envelope
in the cache under the request's key. -/
theorem failedCallStoresRawEnvelope (u : String) (ak : Option String) (t : Url → Json)
    (p : List (String × Prim)) (w : FetchWorld) (m : String) (res : Json)
    (hmiss : ((w.store.lookup (createCache.serialize p)).getD .null).truthy = false)
    (henv : parseRestEnvelope (t (encodeQueryParams ⟨u, some createCache, ak⟩ p)) =
      some (false, m, res)) :
    (clientCallApi ⟨u, some createCache, ak⟩ t p w).1 =
      .error (.remote (jsStringCoerce res)) ∧
    (clientCallApi ⟨u, some createCache, ak⟩ t p w).2.store.lookup
        (createCache.serialize p) =
      some (t (encodeQueryParams ⟨u, some createCache, ak⟩ p)) := by
  have hf := clientFetch_miss u ak createCache t p w hmiss
  unfold clientCallApi
  rw [hf]
  simp only [henv]
  exact ⟨trivial, lookup_storageSetItem_self _ _ _⟩

/-- C1 (witness). -/
theorem failedCallStoresRawEnvelope_witness :
    (clientCallApi ⟨"u", some createCache, none⟩ (fun _ => errEnvelope) sampleParams
        freshWorld).1 = .error (.remote "rate limited") ∧
    (clientCallApi ⟨"u", some createCache, none⟩ (fun _ => errEnvelope) sampleParams
        freshWorld).2.store.lookup (createCache.serialize sampleParams) = some errEnvelope :=
  failedCallStoresRawEnvelope "u" none (fun _ => errEnvelope) sampleParams freshWorld
    "NOTOK" (.str "rate limited") rfl rfl

/-- C2 (counterexample): a falsy transport response — here a JSON `null`
body — defeats the `if (value)` cache-hit test, so the same logical request
issued twice against a fresh cache performs *two* transport invocations,
not one (the payloads do coincide). -/
theorem falsyResponseRefetches :
    (clientFetch ⟨"u", some createCache, none⟩ (fun _ => Json.null) sampleParams
        (clientFetch ⟨"u", some createCache, none⟩ (fun _ => Json.null) sampleParams
          freshWorld).2).2.calls = 2 ∧
    (clientFetch ⟨"u", some createCache, none⟩ (fun _ => Json.null) sampleParams
        (clientFetch ⟨"u", some createCache, none⟩ (fun _ => Json.null) sampleParams
          freshWorld).2).2.calls ≠ 1 ∧
    (clientFetch ⟨"u", some createCache, none⟩ (fun _ => Json.null) sampleParams
        (clientFetch ⟨"u", some createCache, none⟩ (fun _ => Json.null) sampleParams
          freshWorld).2).1 =
      (clientFetch ⟨"u", some createCache, none⟩ (fun _ => Json.null) sampleParams
        freshWorld).1 := by
  have h1 : clientFetch ⟨"u", some createCache, none⟩ (fun _ => Json.null) sampleParams
      freshWorld =
      (Json.null, ⟨[(createCache.serialize sampleParams, Json.null)], 1⟩) := rfl
  have hmiss2 : ((List.lookup (createCache.serialize sampleParams)
      [(createCache.serialize sampleParams, Json.null)]).getD .null).truthy = false := by
    simp [List.lookup]
    rfl
  have h2 := clientFetch_miss "u" none createCache (fun _ => Json.null) sampleParams
    ⟨[(createCache.serialize sampleParams, Json.null)], 1⟩ hmiss2
  rw [h1, h2]
  exact ⟨rfl, by decide, rfl⟩

/-- C2 (amended): with the default cache, issuing the same logical request
twice — the second time with the parameters in any other insertion order —
from a fresh cache performs exactly one transport invocation and returns
identical payloads, *provided* the transport response is truthy (every
well-formed envelope object is; a falsy body defeats the `if (value)`
hit test). -/
theorem cacheHitSuppressesTransport (u : String) (ak : Option String) (t : Url → Json)
    (p1 p2 : List (String × Prim)) (hperm : List.Perm p1 p2)
    (hnodup : (p1.map Prod.fst).Nodup)
    (htruthy : (t (encodeQueryParams ⟨u, some createCache, ak⟩ p1)).truthy = true) :
    (clientFetch ⟨u, some createCache, ak⟩ t p2
        (clientFetch ⟨u, some createCache, ak⟩ t p1 freshWorld).2).2.calls = 1 ∧
    (clientFetch ⟨u, some createCache, ak⟩ t p2
        (clientFetch ⟨u, some createCache, ak⟩ t p1 freshWorld).2).1 =
      (clientFetch ⟨u, some createCache, ak⟩ t p1 freshWorld).1 := by
  have hkey : createCache.serialize p2 = createCache.serialize p1 :=
    (defaultSerialize_eq_of_perm hperm hnodup).symm
  have h1 := clientFetch_miss u ak createCache t p1 freshWorld rfl
  have hhit : (storageSetItem freshWorld.store (createCache.serialize p1)
      (t (encodeQueryParams ⟨u, some createCache, ak⟩ p1))).lookup
      (createCache.serialize p2) =
      some (t (encodeQueryParams ⟨u, some createCache, ak⟩ p1)) := by
    rw [hkey]
    exact lookup_storageSetItem_self _ _ _
  have h2 := clientFetch_hit u ak createCache t p2
    ⟨storageSetItem freshWorld.store (createCache.serialize p1)
      (t (encodeQueryParams ⟨u, some createCache, ak⟩ p1)), freshWorld.calls + 1⟩
    (t (encodeQueryParams ⟨u, some createCache, ak⟩ p1)) hhit htruthy
  rw [h1, h2]
  exact ⟨rfl, rfl⟩

/-- C2 (witness). -/
theorem cacheHitSuppressesTransport_witness :
    (clientFetch ⟨"u", some createCache, none⟩ (fun _ => .obj [("foo", .str "bar")])
        [("action", .str "ethsupply"), ("module", .str "stats")]
        (clientFetch ⟨"u", some createCache, none⟩ (fun _ => .obj [("foo", .str "bar")])
          sampleParams freshWorld).2).2.calls = 1 ∧
    (clientFetch ⟨"u", some createCache, none⟩ (fun _ => .obj [("foo", .str "bar")])
        [("action", .str "ethsupply"), ("module", .str "stats")]
        (clientFetch ⟨"u", some createCache, none⟩ (fun _ => .obj [("foo", .str "bar")])
          sampleParams freshWorld).2).1 =
      (clientFetch ⟨"u", some createCache, none⟩ (fun _ => .obj [("foo", .str "bar")])
        sampleParams freshWorld).1 :=
  cacheHitSuppressesTransport "u" none (fun _ => .obj [("foo", .str "bar")]) sampleParams
    [("action", .str "ethsupply"), ("module", .str "stats")] (by decide) (by decide) rfl

set_option maxRecDepth 1000000 in
/-- C4 (counterexample): the default key derivation does *not* drop
undefined/null entries before hashing: two parameter maps that are equal
after dropping nullish entries — the same logical request — derive
different cache keys, because ohash serializes the `undefined`-valued entry
like any other. -/
theorem nullishEntriesAffectKey :
    dropNullish (sampleParams ++ [("page", Prim.undefined)]) = dropNullish sampleParams ∧
      defaultSerialize (sampleParams ++ [("page", Prim.undefined)]) ≠
        defaultSerialize sampleParams := by
  constructor
  · decide
  · decide

/-- C4 (amended): the default key derivation is deterministic and maps the
same logical request to the same key regardless of parameter insertion
order (for duplicate-free parameter maps); the cache key never incorporates
the API key — clients differing only in their API key write the same key
set, while the `apikey` pair itself is placed on the wire URL only.
(Undefined/null entries, however, are serialized into the key, not
dropped — see the counterexample.) -/
theorem cacheKeyDerivation :
    (∀ p q : List (String × Prim), List.Perm p q → (p.map Prod.fst).Nodup →
      defaultSerialize p = defaultSerialize q) ∧
    (∀ (u : String) (t : Url → Json) (p : List (String × Prim)) (w : FetchWorld)
      (ak1 ak2 : Option String),
      (clientFetch ⟨u, some createCache, ak1⟩ t p w).2.store.map Prod.fst =
        (clientFetch ⟨u, some createCache, ak2⟩ t p w).2.store.map Prod.fst) ∧
    (∀ (u k : String) (p : List (String × Prim)), (∀ kv ∈ p, kv.1 ≠ "apikey") →
      ("apikey", k) ∈ (encodeQueryParams ⟨u, some createCache, some k⟩ p).query) := by
  refine ⟨fun p q h hn => defaultSerialize_eq_of_perm h hn, ?_, ?_⟩
  · intro u t p w ak1 ak2
    by_cases hv : ((w.store.lookup (createCache.serialize p)).getD Json.null).truthy = true
    · cases hl : w.store.lookup (createCache.serialize p) with
      | none => rw [hl] at hv; simp [Json.truthy] at hv
      | some v =>
          have hv2 : v.truthy = true := by rw [hl] at hv; simpa using hv
          rw [clientFetch_hit u ak1 createCache t p w v hl hv2,
            clientFetch_hit u ak2 createCache t p w v hl hv2]
    · have hm : ((w.store.lookup (createCache.serialize p)).getD Json.null).truthy = false := by
        simpa using hv
      rw [clientFetch_miss u ak1 createCache t p w hm,
        clientFetch_miss u ak2 createCache t p w hm]
      exact keys_storageSetItem _ _ _ _
  · intro u k p hp
    unfold encodeQueryParams
    exact apikey_mem_fold k p u [("apikey", k)] (by simp) hp

/-- C4 (witness). -/
theorem cacheKeyDerivation_witness :
    defaultSerialize sampleParams =
      defaultSerialize [("action", .str "ethsupply"), ("module", .str "stats")] ∧
    (clientFetch ⟨"u", some createCache, some "k1"⟩ (fun _ => errEnvelope) sampleParams
        freshWorld).2.store.map Prod.fst =
      (clientFetch ⟨"u", some createCache, some "k2"⟩ (fun _ => errEnvelope) sampleParams
        freshWorld).2.store.map Prod.fst ∧
    ("apikey", "k1") ∈
      (encodeQueryParams ⟨"u", some createCache, some "k1"⟩ sampleParams).query :=
  ⟨cacheKeyDerivation.1 sampleParams [("action", .str "ethsupply"), ("module", .str "stats")]
      (by decide) (by decide),
   cacheKeyDerivation.2.1 "u" (fun _ => errEnvelope) sampleParams freshWorld
      (some "k1") (some "k2"),
   cacheKeyDerivation.2.2 "u" "k1" sampleParams (by decide)⟩

/-- Code points below the surrogate range round-trip through `Char.ofNat`. -/
theorem char_toNat_ofNat {b : Nat} (h : b < 55296) : (Char.ofNat b).toNat = b := by
  unfold Char.ofNat
  rw [dif_pos (Or.inl h)]
  rfl

/-- `strOfBytes` followed by `strBytes` is the identity on ASCII data. -/
theorem strBytes_strOfBytes (l : List Nat) (h : ∀ b ∈ l, b < 55296) :
    strBytes (strOfBytes l) = l := by
  unfold strBytes strOfBytes
  simp only [String.data]
  rw [List.map_map]
  conv_rhs => rw [show l = l.map id from (List.map_id l).symm]
  apply List.map_congr_left
  intro b hb
  exact char_toNat_ofNat (h b hb)

/-- Accumulator form of `digitsToNat`. -/
theorem digitsToNat_acc : ∀ (l : List Nat) (acc : Nat),
    l.foldl (fun acc b => acc * 10 + (b - 48)) acc = acc * 10 ^ l.length + digitsToNat l := by
  intro l
  induction l with
  | nil => intro acc; simp [digitsToNat]
  | cons d t ih =>
      intro acc
      have hd : digitsToNat (d :: t) = (d - 48) * 10 ^ t.length + digitsToNat t := by
        show List.foldl (fun acc b => acc * 10 + (b - 48)) 0 (d :: t) =
          (d - 48) * 10 ^ t.length + digitsToNat t
        rw [List.foldl_cons, ih (0 * 10 + (d - 48))]
        norm_num
      show List.foldl (fun acc b => acc * 10 + (b - 48)) acc (d :: t) =
        acc * 10 ^ (d :: t).length + digitsToNat (d :: t)
      rw [List.foldl_cons, ih (acc * 10 + (d - 48)), hd]
      simp [List.length_cons]
      ring

/-- `digitsToNat` on an appended digit string. -/
theorem digitsToNat_append (a b : List Nat) :
    digitsToNat (a ++ b) = digitsToNat a * 10 ^ b.length + digitsToNat b := by
  unfold digitsToNat
  rw [List.foldl_append]
  exact digitsToNat_acc b _

/-- Trailing zero digits contribute a power of ten. -/
theorem digitsToNat_replicate_zero (k : Nat) : digitsToNat (List.replicate k 48) = 0 := by
  induction k with
  | zero => simp [digitsToNat]
  | succ n ih =>
      have : List.replicate (n + 1) 48 = 48 :: List.replicate n 48 := rfl
      rw [this]
      unfold digitsToNat
      rw [List.foldl_cons, digitsToNat_acc]
      simpa [digitsToNat] using ih

/-- `split` on a separator-free string returns the whole string. -/
theorem splitOnByte_no_sep (sep : Nat) : ∀ l : List Nat, sep ∉ l →
    splitOnByte sep l = [l] := by
  intro l
  induction l with
  | nil => intro _; rfl
  | cons c t ih =>
      intro h
      have hc : c ≠ sep := fun hh => h (hh ▸ List.mem_cons_self c t)
      have ht : sep ∉ t := fun hh => h (List.mem_cons_of_mem c hh)
      unfold splitOnByte
      rw [ih ht]
      simp [hc]

/-- `split` on a string with a single separator yields the two parts. -/
theorem splitOnByte_sep_append (sep : Nat) (a b : List Nat) (ha : sep ∉ a) (hb : sep ∉ b) :
    splitOnByte sep (a ++ sep :: b) = [a, b] := by
  induction a with
  | nil =>
      simp only [List.nil_append]
      unfold splitOnByte
      rw [splitOnByte_no_sep sep b hb]
      simp
  | cons c t ih =>
      have hc : c ≠ sep := fun hh => ha (hh ▸ List.mem_cons_self c t)
      have ht : sep ∉ t := fun hh => ha (List.mem_cons_of_mem c hh)
      simp only [List.cons_append]
      unfold splitOnByte
      rw [ih ht]
      simp [hc]

/-- Every digit list splits as its zero-trimmed prefix plus trailing
zeros. -/
theorem dropTrailing_decomp (l : List Nat) :
    ∃ k, l = dropTrailingZeroBytes l ++ List.replicate k 48 := by
  refine ⟨(l.reverse.takeWhile fun b => b == 48).length, ?_⟩
  unfold dropTrailingZeroBytes
  have hsplit : l.reverse = (l.reverse.takeWhile fun b => b == 48) ++
      (l.reverse.dropWhile fun b => b == 48) := (List.takeWhile_append_dropWhile _ _).symm
  have hrep : l.reverse.takeWhile (fun b => b == 48) =
      List.replicate (l.reverse.takeWhile fun b => b == 48).length 48 := by
    apply List.eq_replicate_of_mem
    intro b hb
    have := List.mem_takeWhile_imp hb
    simpa using this
  calc l = l.reverse.reverse := (List.reverse_reverse l).symm
    _ = ((l.reverse.takeWhile fun b => b == 48) ++
          (l.reverse.dropWhile fun b => b == 48)).reverse := by rw [← hsplit]
    _ = (l.reverse.dropWhile fun b => b == 48).reverse ++
          (l.reverse.takeWhile fun b => b == 48).reverse := by rw [List.reverse_append]
    _ = (l.reverse.dropWhile fun b => b == 48).reverse ++
          List.replicate (l.reverse.takeWhile fun b => b == 48).length 48 := by
        rw [show ((l.reverse.takeWhile fun b => b == 48).reverse =
          List.replicate (l.reverse.takeWhile fun b => b == 48).length 48) from by
            rw [hrep]; simp]

set_option maxHeartbeats 2000000 in
/-- viem `parseEther` is exact big-integer scaling for fractional parts of
at most 18 digits. -/
theorem viemParseEther_exact (ints fracs : List Nat) (hi : ints ≠ [])
    (hid : ∀ b ∈ ints, 48 ≤ b ∧ b ≤ 57) (hfd : ∀ b ∈ fracs, 48 ≤ b ∧ b ≤ 57)
    (hlen : fracs.length ≤ 18) :
    viemParseEther (strOfBytes (ints ++ 46 :: fracs)) =
      some ((digitsToNat ints * 10 ^ 18 + digitsToNat fracs * 10 ^ (18 - fracs.length) : ℕ)) := by
  have hbytes : strBytes (strOfBytes (ints ++ 46 :: fracs)) = ints ++ 46 :: fracs := by
    apply strBytes_strOfBytes
    intro b hb
    rcases List.mem_append.mp hb with h | h
    · have := hid b h; omega
    · rcases List.mem_cons.mp h with rfl | h
      · omega
      · have := hfd b h; omega
  have hni : (46 : Nat) ∉ ints := fun hmem => by have := hid 46 hmem; omega
  have hnf : (46 : Nat) ∉ fracs := fun hmem => by have := hfd 46 hmem; omega
  have hsplit : splitOnByte 46 (ints ++ 46 :: fracs) = [ints, fracs] :=
    splitOnByte_sep_append 46 ints fracs hni hnf
  have hh45 : (ints ++ 46 :: fracs).headD 0 ≠ 45 := by
    cases ints with
    | nil => exact absurd rfl hi
    | cons a t =>
        have := hid a (List.mem_cons_self a t)
        simp only [List.cons_append, List.headD_cons]
        omega
  have hih : ints.headD 0 ≠ 45 := by
    cases ints with
    | nil => exact absurd rfl hi
    | cons a t =>
        have := hid a (List.mem_cons_self a t)
        simp only [List.headD_cons]
        omega
  have hreg : decimalRegexTest (ints ++ 46 :: fracs) = true := by
    unfold decimalRegexTest
    rw [if_neg hh45]
    rw [show (match splitOnByte 46 (ints ++ 46 :: fracs) with
      | [x] => x.all isDigitByte
      | [x, y] => x.all isDigitByte && y.all isDigitByte
      | x => false) = (ints.all isDigitByte && fracs.all isDigitByte) from by rw [hsplit]]
    simp only [Bool.and_eq_true, List.all_eq_true]
    refine And.intro ?_ ?_
    · intro b hb
      have := hid b hb
      simp only [isDigitByte, Bool.and_eq_true, decide_eq_true_eq]
      omega
    · intro b hb
      have := hfd b hb
      simp only [isDigitByte, Bool.and_eq_true, decide_eq_true_eq]
      omega
  obtain ⟨k, hdec⟩ := dropTrailing_decomp fracs
  have hlen1 : (dropTrailingZeroBytes fracs).length + k = fracs.length := by
    conv_rhs => rw [hdec]
    simp
  unfold viemParseEther viemParseUnits
  rw [hbytes]
  rw [if_neg (by simp [hreg])]
  simp only [hsplit]
  simp only [List.getD_cons_zero, List.getD_cons_succ, List.length_cons, List.length_nil]
  rw [if_pos (show (2:ℕ) ≤ 0 + 1 + 1 by omega)]
  rw [if_neg hih]
  rw [if_neg (by omega : ¬ (18 = 0))]
  rw [if_neg (by omega : ¬ (18 < (dropTrailingZeroBytes fracs).length))]
  rw [if_neg hih]
  congr 1
  have hfr : digitsToNat fracs = digitsToNat (dropTrailingZeroBytes fracs) * 10 ^ k := by
    conv_lhs => rw [hdec]
    rw [digitsToNat_append, digitsToNat_replicate_zero, List.length_replicate]
    ring
  rw [digitsToNat_append, digitsToNat_append, digitsToNat_replicate_zero,
    List.length_append, List.length_replicate, hfr]
  have h1 : (dropTrailingZeroBytes fracs).length + (18 - (dropTrailingZeroBytes fracs).length)
      = 18 := by omega
  have h2 : k + (18 - fracs.length) = 18 - (dropTrailingZeroBytes fracs).length := by omega
  rw [h1]
  push_cast
  rw [← h2, pow_add]
  ring

set_option maxHeartbeats 1000000 in
/-- ethers `parseEther` is exact big-integer scaling for fractional parts
of at most 18 digits. -/
theorem ethersParseEther_exact (ints fracs : List Nat) (hi : ints ≠ [])
    (hid : ∀ b ∈ ints, 48 ≤ b ∧ b ≤ 57) (hfd : ∀ b ∈ fracs, 48 ≤ b ∧ b ≤ 57)
    (hlen : fracs.length ≤ 18) :
    ethersParseEther (strOfBytes (ints ++ 46 :: fracs)) =
      some (((digitsToNat ints * 10 ^ 18 + digitsToNat fracs * 10 ^ (18 - fracs.length) : ℕ) : ℤ)) := by
  have hbytes : strBytes (strOfBytes (ints ++ 46 :: fracs)) = ints ++ 46 :: fracs := by
    apply strBytes_strOfBytes
    intro b hb
    rcases List.mem_append.mp hb with h | h
    · have := hid b h; omega
    · rcases List.mem_cons.mp h with rfl | h
      · omega
      · have := hfd b h; omega
  have hni : (46 : Nat) ∉ ints := fun hmem => by have := hid 46 hmem; omega
  have hnf : (46 : Nat) ∉ fracs := fun hmem => by have := hfd 46 hmem; omega
  have hsplit : splitOnByte 46 (ints ++ 46 :: fracs) = [ints, fracs] :=
    splitOnByte_sep_append 46 ints fracs hni hnf
  have hh45 : (ints ++ 46 :: fracs).headD 0 ≠ 45 := by
    cases ints with
    | nil => exact absurd rfl hi
    | cons a t =>
        have := hid a (List.mem_cons_self a t)
        simp only [List.cons_append, List.headD_cons]
        omega
  have hcond : ints.all isDigitByte = true ∧ fracs.all isDigitByte = true ∧
      (ints ≠ [] ∨ fracs ≠ []) := by
    refine ⟨?_, ?_, Or.inl hi⟩
    · simp only [List.all_eq_true]
      intro b hb
      have := hid b hb
      simp only [isDigitByte, Bool.and_eq_true, Bool.or_eq_true, decide_eq_true_eq]
      omega
    · simp only [List.all_eq_true]
      intro b hb
      have := hfd b hb
      simp only [isDigitByte, Bool.and_eq_true, Bool.or_eq_true, decide_eq_true_eq]
      omega
  have hlen18 : (fracs ++ List.replicate (18 - fracs.length) 48).length = 18 := by
    simp only [List.length_append, List.length_replicate]
    omega
  have hdrop : (((fracs ++ List.replicate (18 - fracs.length) 48).drop 18).all
      fun b => decide (b = 48)) = true := by
    rw [List.drop_eq_nil_of_le (by omega)]
    rfl
  unfold ethersParseEther
  simp only [hbytes, if_neg hh45, hsplit]
  rw [if_pos hcond, if_neg hi, if_pos hdrop]
  rw [List.take_of_length_le (by omega)]
  rw [digitsToNat_append, digitsToNat_append, digitsToNat_replicate_zero,
    List.length_append, List.length_replicate]
  have h1 : fracs.length + (18 - fracs.length) = 18 := by omega
  rw [h1]
  push_cast
  ring

/-- C7 (counterexample): the current viem-based `Ether` codec does not fail
on a fractional part longer than 18 digits — `"0.0000000000000000001"`
(nineteen fractional digits, worth 0.1 wei) parses successfully to `0` wei,
silently dropping the excess precision. -/
theorem viemEtherDropsPrecision :
    parseEtherCodec (.str "0.0000000000000000001") = some 0 ∧
      parseEtherCodec (.str "0.0000000000000000001") ≠ none := by
  exact ⟨by decide, by decide⟩

/-- C7 (amended): both ether codecs parse a decimal string with a `.`
separator into the exact big-integer wei amount scaled by `10^18` when the
fractional part has at most 18 digits; beyond 18 digits the viem-based
codec (src/core.ts) silently rounds half-up instead of failing, while the
ethers-based historical codec (src/etherscan.ts) fails unless the excess
digits are all zeros. -/
theorem etherCodecBehavior :
    (∀ ints fracs : List Nat, ints ≠ [] → (∀ b ∈ ints, 48 ≤ b ∧ b ≤ 57) →
      (∀ b ∈ fracs, 48 ≤ b ∧ b ≤ 57) → fracs.length ≤ 18 →
      viemParseEther (strOfBytes (ints ++ 46 :: fracs)) =
        some ((digitsToNat ints * 10 ^ 18 + digitsToNat fracs * 10 ^ (18 - fracs.length) : ℕ)) ∧
      ethersParseEther (strOfBytes (ints ++ 46 :: fracs)) =
        some (((digitsToNat ints * 10 ^ 18 + digitsToNat fracs * 10 ^ (18 - fracs.length) : ℕ) : ℤ))) ∧
    viemParseEther "0.0000000000000000015" = some 2 ∧
    ethersParseEther "0.0000000000000000001" = none ∧
    ethersParseEther "1.0000000000000000000" = some 1000000000000000000 := by
  refine ⟨?_, by decide, by decide, by decide⟩
  intro ints fracs h1 h2 h3 h4
  exact ⟨viemParseEther_exact ints fracs h1 h2 h3 h4,
    ethersParseEther_exact ints fracs h1 h2 h3 h4⟩

/-- C7 (witness). -/
theorem etherCodecBehavior_witness :
    viemParseEther (strOfBytes ([49] ++ 46 :: [53])) =
      some ((digitsToNat [49] * 10 ^ 18 + digitsToNat [53] * 10 ^ (18 - [53].length) : ℕ)) ∧
    ethersParseEther (strOfBytes ([49] ++ 46 :: [53])) =
      some (((digitsToNat [49] * 10 ^ 18 + digitsToNat [53] * 10 ^ (18 - [53].length) : ℕ) : ℤ)) :=
  etherCodecBehavior.1 [49] [53] (by decide) (by decide) (by decide) (by decide)

/-- Hex digits are ordinary ASCII code points. -/
theorem isHexByte_lt {b : Nat} (h : isHexByte b = true) : b < 55296 := by
  simp only [isHexByte, Bool.or_eq_true, Bool.and_eq_true, decide_eq_true_eq] at h
  omega

/-- Lower-casing a hex digit yields a decimal digit or a lower-case hex letter. -/
theorem asciiLower_hex {b : Nat} (h : isHexByte b = true) :
    (48 ≤ asciiLower b ∧ asciiLower b ≤ 57) ∨ (97 ≤ asciiLower b ∧ asciiLower b ≤ 102) := by
  simp only [isHexByte, Bool.or_eq_true, Bool.and_eq_true, decide_eq_true_eq] at h
  unfold asciiLower
  split <;> omega

/-- Upper-casing preserves hex digits. -/
theorem isHexByte_asciiUpper {b : Nat} (h : isHexByte b = true) :
    isHexByte (asciiUpper b) = true := by
  simp only [isHexByte, Bool.or_eq_true, Bool.and_eq_true, decide_eq_true_eq] at h ⊢
  unfold asciiUpper
  split <;> omega

/-- A decimal digit or lower-case hex letter is a hex digit. -/
theorem isHexByte_of_lower {b : Nat}
    (h : (48 ≤ b ∧ b ≤ 57) ∨ (97 ≤ b ∧ b ≤ 102)) : isHexByte b = true := by
  simp only [isHexByte, Bool.or_eq_true, Bool.and_eq_true, decide_eq_true_eq]
  omega

/-- Lower-casing fixes bytes outside the upper-case letter range. -/
theorem asciiLower_id {b : Nat} (h : ¬ (65 ≤ b ∧ b ≤ 90)) : asciiLower b = b := by
  unfold asciiLower
  rw [if_neg h]

/-- Lower-casing undoes upper-casing on decimal digits and lower-case hex letters. -/
theorem asciiLower_asciiUpper {b : Nat}
    (h : (48 ≤ b ∧ b ≤ 57) ∨ (97 ≤ b ∧ b ≤ 102)) : asciiLower (asciiUpper b) = b := by
  unfold asciiUpper
  by_cases h2 : 97 ≤ b ∧ b ≤ 122
  · rw [if_pos h2]
    unfold asciiLower
    rw [if_pos (by omega)]
    omega
  · rw [if_neg h2]
    unfold asciiLower
    rw [if_neg (by omega)]

/-- Reading a list off by positions reproduces the list. -/
theorem map_getD_range : ∀ l : List Nat, (List.range l.length).map (fun i => l.getD i 0) = l := by
  intro l
  induction l with
  | nil => rfl
  | cons a t ih =>
      rw [List.length_cons, List.range_succ_eq_map, List.map_cons, List.map_map]
      have hfun : ((fun i => (a :: t).getD i 0) ∘ Nat.succ) = fun i => t.getD i 0 := by
        funext i
        simp [List.getD_cons_succ]
      rw [show (a :: t).getD 0 0 = a from rfl, hfun, ih]

/-- `checksumCase` keeps the length of the address body. -/
theorem checksumCase_length (l : List Nat) : (checksumCase l).length = l.length := by
  unfold checksumCase
  simp

/-- Every output byte of `checksumCase` is a hex digit when the input is. -/
theorem checksumCase_hex {l : List Nat} (h : ∀ b ∈ l, isHexByte b = true) :
    ∀ x ∈ checksumCase l, isHexByte x = true := by
  unfold checksumCase
  intro x hx
  rw [List.mem_map] at hx
  obtain ⟨i, hi, rfl⟩ := hx
  rw [List.mem_range] at hi
  have hmem : l.getD i 0 ∈ l := by
    rw [List.getD_eq_getElem l 0 hi]
    exact List.getElem_mem hi
  dsimp only
  split <;> split
  · exact isHexByte_asciiUpper (h _ hmem)
  · exact h _ hmem
  · exact isHexByte_asciiUpper (h _ hmem)
  · exact h _ hmem

/-- Lower-casing the checksummed body recovers the lower-case body. -/
theorem checksumCase_lower {l : List Nat}
    (h : ∀ b ∈ l, (48 ≤ b ∧ b ≤ 57) ∨ (97 ≤ b ∧ b ≤ 102)) :
    (checksumCase l).map asciiLower = l := by
  unfold checksumCase
  rw [List.map_map]
  conv_rhs => rw [← map_getD_range l]
  apply List.map_congr_left
  intro i hi
  rw [List.mem_range] at hi
  have hmem : l.getD i 0 ∈ l := by
    rw [List.getD_eq_getElem l 0 hi]
    exact List.getElem_mem hi
  dsimp only [Function.comp]
  split <;> split
  · exact asciiLower_asciiUpper (h _ hmem)
  · exact asciiLower_id (by have := h _ hmem; omega)
  · exact asciiLower_asciiUpper (h _ hmem)
  · exact asciiLower_id (by have := h _ hmem; omega)

/-- Byte decomposition of a `0x`-prefixed string built from ASCII data. -/
theorem strBytes_0x (bs : List Nat) (h : ∀ b ∈ bs, b < 55296) :
    strBytes ("0x" ++ strOfBytes bs) = 48 :: 120 :: bs := by
  have hdata : ("0x" ++ strOfBytes bs).data = '0' :: 'x' :: (bs.map Char.ofNat) := by
    rw [String.data_append]
    rfl
  unfold strBytes
  rw [hdata, List.map_cons, List.map_cons, List.map_map]
  have : bs.map (Char.toNat ∘ Char.ofNat) = bs := by
    conv_rhs => rw [show bs = bs.map id from (List.map_id bs).symm]
    apply List.map_congr_left
    intro b hb
    exact char_toNat_ofNat (h b hb)
  rw [this]
  rfl

/-- Evaluation of viem's `getAddress` on a well-formed `0x`-prefixed body:
it accepts the address whatever the letter case of the body and returns the
checksum of the lower-cased body. -/
theorem viemGetAddress_hex (bs : List Nat) (hb : ∀ b ∈ bs, isHexByte b = true)
    (hlen : bs.length = 40) :
    viemGetAddress ("0x" ++ strOfBytes bs) =
      some ("0x" ++ strOfBytes (checksumCase (bs.map asciiLower))) := by
  have hlt : ∀ b ∈ bs, b < 55296 := fun b h => isHexByte_lt (hb b h)
  have hsb := strBytes_0x bs hlt
  have hloose : viemIsAddressLoose ("0x" ++ strOfBytes bs) = true := by
    unfold viemIsAddressLoose
    rw [hsb]
    simp [hlen, List.all_eq_true]
    exact fun x hx => hb x hx
  unfold viemGetAddress
  rw [if_pos hloose]
  have hcs : viemChecksumAddress ("0x" ++ strOfBytes bs) =
      "0x" ++ strOfBytes (checksumCase (bs.map asciiLower)) := by
    unfold viemChecksumAddress
    rw [hsb]
    rfl
  rw [hcs]

/-- **C6** (amended): for the `Address` codec of src/core.ts the claim holds:
on a `0x`-prefixed 40-hex-digit body the parse accepts the input whatever the
letter case of the body, any two bodies with the same letters modulo case
parse to the same result, the output is the one checksum of the lower-cased
body, and re-parsing a parse output returns it unchanged.  (The historical
`Address` codec of src/etherscan.ts falsifies the original sentence: see the
counterexample.) -/
theorem addressChecksumCanonical (s out : String) (bs bs2 : List Nat)
    (hb : ∀ b ∈ bs, isHexByte b = true) (hlen : bs.length = 40)
    (hb2 : ∀ b ∈ bs2, isHexByte b = true) (hlen2 : bs2.length = 40)
    (hsame : bs.map asciiLower = bs2.map asciiLower) :
    parseAddress (.str ("0x" ++ strOfBytes bs)) =
        some ("0x" ++ strOfBytes (checksumCase (bs.map asciiLower)))
    ∧ parseAddress (.str ("0x" ++ strOfBytes bs)) = parseAddress (.str ("0x" ++ strOfBytes bs2))
    ∧ (parseAddress (.str s) = some out → parseAddress (.str out) = some out) := by
  refine ⟨viemGetAddress_hex bs hb hlen, ?_, ?_⟩
  · show viemGetAddress _ = viemGetAddress _
    rw [viemGetAddress_hex bs hb hlen, viemGetAddress_hex bs2 hb2 hlen2, hsame]
  · intro h
    have h2 : viemGetAddress s = some out := h
    unfold viemGetAddress at h2
    by_cases hv : viemIsAddressLoose s = true
    · rw [if_pos hv] at h2
      have hout : viemChecksumAddress s = out := Option.some.inj h2
      unfold viemIsAddressLoose at hv
      split at hv
      · rename_i rest heq
        rw [Bool.and_eq_true, decide_eq_true_eq, List.all_eq_true] at hv
        obtain ⟨hrlen, hrall⟩ := hv
        have hrhex : ∀ b ∈ rest, isHexByte b = true := fun b hb => by
          have := hrall b hb
          simpa using this
        have hlow : ∀ b ∈ rest.map asciiLower,
            (48 ≤ b ∧ b ≤ 57) ∨ (97 ≤ b ∧ b ≤ 102) := by
          intro b hbm
          rw [List.mem_map] at hbm
          obtain ⟨c, hc, rfl⟩ := hbm
          exact asciiLower_hex (hrhex c hc)
        have hcshex : ∀ x ∈ checksumCase (rest.map asciiLower), isHexByte x = true :=
          checksumCase_hex (fun b hbm => isHexByte_of_lower (hlow b hbm))
        have hcslen : (checksumCase (rest.map asciiLower)).length = 40 := by
          rw [checksumCase_length, List.length_map, hrlen]
        have hchk : viemChecksumAddress s =
            "0x" ++ strOfBytes (checksumCase (rest.map asciiLower)) := by
          unfold viemChecksumAddress
          rw [heq]
          rfl
        have hmain := viemGetAddress_hex (checksumCase (rest.map asciiLower)) hcshex hcslen
        rw [checksumCase_lower hlow] at hmain
        show viemGetAddress out = some out
        rw [← hout, hchk]
        exact hmain
      · simp at hv
    · rw [if_neg hv] at h2
      exact Option.noConfusion h2

/-- **C6** witness: the amended theorem applied to the all-lower-case body
`aaaa…a` and its all-upper-case variant `AAAA…A`. -/
theorem addressChecksumCanonical_witness :
    (∀ b ∈ List.replicate 40 97, isHexByte b = true) ∧
    (List.replicate 40 97).length = 40 ∧
    (∀ b ∈ List.replicate 40 65, isHexByte b = true) ∧
    (List.replicate 40 65).length = 40 ∧
    ((List.replicate 40 97).map asciiLower = (List.replicate 40 65).map asciiLower) ∧
    (parseAddress (.str ("0x" ++ strOfBytes (List.replicate 40 97))) =
        some ("0x" ++ strOfBytes (checksumCase ((List.replicate 40 97).map asciiLower)))
      ∧ parseAddress (.str ("0x" ++ strOfBytes (List.replicate 40 97))) =
          parseAddress (.str ("0x" ++ strOfBytes (List.replicate 40 65)))
      ∧ (parseAddress (.str "") = some "" → parseAddress (.str "") = some "")) :=
  ⟨by decide, by decide, by decide, by decide, by decide,
    addressChecksumCanonical "" "" (List.replicate 40 97) (List.replicate 40 65)
      (by decide) (by decide) (by decide) (by decide) (by decide)⟩

set_option maxRecDepth 1000000 in
set_option maxHeartbeats 4000000 in
/-- **C6** counterexample: the `Address` codec of src/etherscan.ts (lines
19–25) falsifies the sentence.  It accepts the all-lower-case spelling of the
first EIP-55 test address and returns it lower-cased — not the checksum form
that the core.ts codec returns — and it rejects outright a letter-case
variant of the very same 20 bytes, because `ethers.isAddress` treats any
mixed-case input as a checksum to verify. -/
theorem addressLowercaseNotChecksum :
    etherScanParseAddress (.str "0x5aaeb6053f3e94c9b9a09f33669435e7ef1beaed") =
      some "0x5aaeb6053f3e94c9b9a09f33669435e7ef1beaed"
    ∧ etherScanParseAddress (.str "0x5Aaeb6053f3e94c9b9a09f33669435e7ef1beaed") = none
    ∧ parseAddress (.str "0x5aaeb6053f3e94c9b9a09f33669435e7ef1beaed") =
        some "0x5aAeb6053F3E94C9b9A09f33669435E7Ef1BeAed"
    ∧ "0x5aAeb6053F3E94C9b9A09f33669435E7Ef1BeAed" ≠
        "0x5aaeb6053f3e94c9b9a09f33669435e7ef1beaed" := by
  refine ⟨by decide, by decide, by decide, by decide⟩
